import Mathlib

/-!
A verification development for the `news_scraper` repository.

The Python sources (`news_scraper/items.py`, `news_scraper/pipelines.py`,
`news_scraper/utils/extractor.py`, `news_scraper/utils/date_parser.py`)
are embedded shallowly: every Python function relevant to the checked
properties is translated into an executable Lean definition, and the
properties are proved (or refuted) about those definitions.

Conventions of the embedding:
* Python `str` is Lean `String`; most work happens on `String.data`
  (`List Char`).
* Python machine behaviour that matters (MD5 32-bit arithmetic) is done
  on `Nat` with explicit `% 2 ^ 32`.
* Fallible operations return `Option`; an exception caught by the Python
  code is modelled as the corresponding `Option.none` outcome.
* `datetime.now()` is passed in explicitly as a parameter.
-/

namespace NewsScraper

/-! ## Python string primitives -/

/-- The whitespace characters recognised by Python's `str.split()` /
`str.strip()` for the ASCII inputs this code base manipulates. -/
def pyWs (c : Char) : Bool :=
  c = ' ' || c = '\t' || c = '\n' || c = '\r' || c = '\x0b' || c = '\x0c'

/-- `str.lstrip()` on a character list. -/
def lstripL (l : List Char) : List Char := l.dropWhile pyWs

/-- `str.strip()` on a character list: drop whitespace at both ends. -/
def stripL (l : List Char) : List Char :=
  ((l.dropWhile pyWs).reverse.dropWhile pyWs).reverse

/-- `str.strip()` on strings. -/
def pyStrip (s : String) : String := ⟨stripL s.data⟩

/-- `str.strip(chars)` on a character list: drop characters of `cs`
at both ends. -/
def stripCharsL (cs : List Char) (l : List Char) : List Char :=
  ((l.dropWhile (cs.contains ·)).reverse.dropWhile (cs.contains ·)).reverse

/-- Accumulator-style worker for `str.split()` (split on whitespace runs,
dropping empty pieces).  `acc` holds the reversed current chunk. -/
def splitWsAux : List Char → List Char → List (List Char)
  | [], acc => if acc.isEmpty then [] else [acc.reverse]
  | c :: t, acc =>
    if pyWs c then
      if acc.isEmpty then splitWsAux t [] else acc.reverse :: splitWsAux t []
    else splitWsAux t (c :: acc)

/-- `str.split()` (no separator argument) on a character list. -/
def splitWsL (l : List Char) : List (List Char) := splitWsAux l []

/-- `sep.join(parts)` on character lists. -/
def joinSepL (sep : List Char) : List (List Char) → List Char
  | [] => []
  | [g] => g
  | g :: t => g ++ sep ++ joinSepL sep t

/-- `str.split(sep)` for a one-character separator: keeps empty pieces,
`""` splits to `[""]`. -/
def splitCharL (sep : Char) : List Char → List (List Char)
  | [] => [[]]
  | c :: t =>
    if c = sep then [] :: splitCharL sep t
    else
      match splitCharL sep t with
      | [] => [[c]]
      | g :: gs => (c :: g) :: gs

/-- `needle in haystack` (substring containment) on character lists;
the empty needle is contained in everything, as in Python. -/
def hasSubL (pat : List Char) : List Char → Bool
  | [] => pat.isEmpty
  | s@(_ :: t) => pat.isPrefixOf s || hasSubL pat t

/-- `needle in haystack` on strings. -/
def pyContains (hay pat : String) : Bool := hasSubL pat.data hay.data

/-- `s.startswith(p)` on strings. -/
def pyStarts (s p : String) : Bool := p.data.isPrefixOf s.data

/-- `s.endswith(p)` on strings. -/
def pyEnds (s p : String) : Bool := p.data.reverse.isPrefixOf s.data.reverse

/-- ASCII `str.lower` on one character (the inputs the scraper lowercases
are ASCII). -/
def pyLowerChar (c : Char) : Char :=
  if 65 ≤ c.toNat ∧ c.toNat ≤ 90 then Char.ofNat (c.toNat + 32) else c

/-- ASCII `str.upper` on one character. -/
def pyUpperChar (c : Char) : Char :=
  if 97 ≤ c.toNat ∧ c.toNat ≤ 122 then Char.ofNat (c.toNat - 32) else c

/-- `str.lower()`. -/
def pyLower (s : String) : String := ⟨s.data.map pyLowerChar⟩

/-- `str.upper()`. -/
def pyUpper (s : String) : String := ⟨s.data.map pyUpperChar⟩

/-- A Python value that is either a `str` or a `list[str]`
(several pipeline entry points accept both). -/
inductive PyStrOrList where
  | str (s : String)
  | list (l : List String)
deriving DecidableEq

/-! ## `pipelines.py`: ValidationPipeline -/

/-- `ValidationPipeline.required_fields`. -/
def required_fields : List String := ["title", "url", "source_name"]

/-- The fields of a scraped item that `ValidationPipeline.process_item`
inspects.  A missing field and an empty string are both falsy for
`item.get(field)`, so both are modelled as `""`. -/
structure VItem where
  title : String := ""
  content : String := ""
  url : String := ""
  source_name : String := ""
deriving DecidableEq

/-- The distinguishable `DropItem` reasons raised by
`ValidationPipeline.process_item` (missing required field /
"标题过短" i.e. title too short / "无效的URL格式" i.e. invalid url). -/
inductive VReject where
  | missingField (f : String)
  | titleTooShort
  | invalidUrl
deriving DecidableEq

/-- `item.get(field)` for the fields the validation stage reads. -/
def vfield (it : VItem) : String → String
  | "title" => it.title
  | "content" => it.content
  | "url" => it.url
  | "source_name" => it.source_name
  | _ => ""

/-- The first required field whose value is falsy, in the listed order. -/
def firstMissing (it : VItem) : List String → Option String
  | [] => none
  | f :: t => if vfield it f = "" then some f else firstMissing it t

/-- `ValidationPipeline.process_item`.  Returns the accepted item paired
with the flag "a short-content warning was logged", or the `DropItem`
reason. -/
def validation_process_item (it : VItem) : Except VReject (VItem × Bool) :=
  match firstMissing it required_fields with
  | some f => .error (.missingField f)
  | none =>
    if it.title.length < 10 then .error .titleTooShort
    else
      let warn := it.content ≠ "" && it.content.length < 50
      if pyStarts it.url "http://" || pyStarts it.url "https://" then .ok (it, warn)
      else .error .invalidUrl

/-! ## `pipelines.py`: DeduplicationPipeline -/

/-- The two fields `DeduplicationPipeline.process_item` reads. -/
structure DedupItem where
  url : String
  news_id : String
deriving DecidableEq

/-- The two `DropItem` reasons of the dedup stage
("重复URL" duplicate url / "重复新闻ID" duplicate news id). -/
inductive DropReason where
  | duplicateUrl
  | duplicateId
deriving DecidableEq

/-- The run-scoped state of `DeduplicationPipeline` (`seen_urls`,
`seen_ids`, `duplicate_count`); the Python sets are modelled as lists,
membership being all the code uses. -/
structure DedupState where
  seen_urls : List String
  seen_ids : List String
  duplicate_count : Nat
deriving DecidableEq

/-- The state `DeduplicationPipeline.__init__` creates. -/
def dedupInit : DedupState := ⟨[], [], 0⟩

/-- `DeduplicationPipeline.process_item`: the new state and the drop
reason (`none` = item accepted). -/
def dedup_process_item (st : DedupState) (item : DedupItem) :
    DedupState × Option DropReason :=
  if item.url ∈ st.seen_urls then
    ({ st with duplicate_count := st.duplicate_count + 1 }, some .duplicateUrl)
  else
    let st1 := { st with seen_urls := st.seen_urls ++ [item.url] }
    if item.news_id ∈ st1.seen_ids then
      ({ st1 with duplicate_count := st1.duplicate_count + 1 }, some .duplicateId)
    else
      ({ st1 with seen_ids := st1.seen_ids ++ [item.news_id] }, none)

/-- Outcome of each submitted item when a whole run is fed through the
dedup stage in order. -/
def dedupOutcomes (st : DedupState) : List DedupItem → List (Option DropReason)
  | [] => []
  | it :: t => (dedup_process_item st it).2 :: dedupOutcomes (dedup_process_item st it).1 t

/-- Dedup state after feeding a list of items through the stage. -/
def dedupRunState (st : DedupState) : List DedupItem → DedupState
  | [] => st
  | it :: t => dedupRunState (dedup_process_item st it).1 t

/-! ## `pipelines.py`: DataCleaningPipeline field transforms -/

/-- The fixed suffix list of `DataCleaningPipeline._clean_title`. -/
def titleSuffixes : List String := [" - CNN", " - BBC News", " | Reuters"]

/-- The `for suffix in [...]` loop of `_clean_title`: each listed suffix
is stripped (once) if the current title ends with it, followed by
`.strip()`. -/
def stripSuffixes : List Char → List (List Char) → List Char
  | l, [] => l
  | l, suf :: rest =>
    stripSuffixes
      (if suf.reverse.isPrefixOf l.reverse then stripL (l.take (l.length - suf.length)) else l)
      rest

/-- `DataCleaningPipeline._clean_title`. -/
def clean_title (title : String) : String :=
  if title = "" then ""
  else
    let t1 := joinSepL [' '] (splitWsL title.data)
    let t2 := stripCharsL ['\n', '\r', '\t'] t1
    ⟨stripSuffixes t2 (titleSuffixes.map (·.data))⟩

/-- `DataCleaningPipeline._clean_content`. -/
def clean_content (content : PyStrOrList) : String :=
  let c : String :=
    match content with
    | .list l => ⟨joinSepL ['\n'] (l.map (·.data))⟩
    | .str s => s
  if c = "" then ""
  else
    let lines := splitCharL '\n' c.data
    let cleaned := (lines.map stripL).filter (· ≠ [])
    ⟨joinSepL ['\n'] cleaned⟩

/-- `DataCleaningPipeline._clean_text` (used for `summary`). -/
def clean_text (text : String) : String :=
  if text = "" then "" else ⟨stripL (joinSepL [' '] (splitWsL text.data))⟩

/-- `DataCleaningPipeline._clean_url`. -/
def clean_url (url : String) : String :=
  if url = "" then ""
  else
    let u := stripL url.data
    if u.contains '?' then ⟨u.takeWhile (· ≠ '?')⟩ else ⟨u⟩

/-- Body of the per-element loop of `_clean_image_list`: strip, keep only
urls with a valid scheme, turning protocol-relative `//…` into
`https://…`. -/
def cleanOneImg (img : String) : Option String :=
  if pyStarts (pyStrip img) "http://" || pyStarts (pyStrip img) "https://" ||
      pyStarts (pyStrip img) "//" then
    some (if pyStarts (pyStrip img) "//" then "https:" ++ pyStrip img else pyStrip img)
  else none

/-- `DataCleaningPipeline._clean_image_list`. -/
def clean_image_list (images : PyStrOrList) : List String :=
  match images with
  | .str s => if s = "" then [] else [s].filterMap cleanOneImg
  | .list l => if l = [] then [] else l.filterMap cleanOneImg

/-- The strip/lowercase/dedup loop of `_clean_tags` with its `seen` set. -/
def cleanTagsLoop : List String → List String → List String
  | [], _ => []
  | tag :: t, seen =>
    if pyLower (pyStrip tag) ≠ "" ∧ pyLower (pyStrip tag) ∉ seen then
      pyLower (pyStrip tag) :: cleanTagsLoop t (pyLower (pyStrip tag) :: seen)
    else cleanTagsLoop t seen

/-- `DataCleaningPipeline._clean_tags`. -/
def clean_tags (tags : PyStrOrList) : List String :=
  match tags with
  | .str s => if s = "" then [] else cleanTagsLoop [s] []
  | .list l => if l = [] then [] else cleanTagsLoop l []

/-! ## `items.py`: `generate_news_id` (MD5 of the UTF-8 encoded url)

`hashlib.md5` is modelled by a complete MD5 implementation over byte
lists, with 32-bit words as `Nat` reduced `% 2 ^ 32`.  The bitwise
operations use fuel-based structural recursion so everything stays
kernel-reducible. -/

/-- Binary AND of the low `fuel` bits. -/
def landAux : Nat → Nat → Nat → Nat
  | 0, _, _ => 0
  | f + 1, a, b => a % 2 * (b % 2) + 2 * landAux f (a / 2) (b / 2)

/-- Binary OR of the low `fuel` bits. -/
def lorAux : Nat → Nat → Nat → Nat
  | 0, _, _ => 0
  | f + 1, a, b => (a % 2 + b % 2 - a % 2 * (b % 2)) + 2 * lorAux f (a / 2) (b / 2)

/-- Binary XOR of the low `fuel` bits. -/
def lxorAux : Nat → Nat → Nat → Nat
  | 0, _, _ => 0
  | f + 1, a, b => (a % 2 + b % 2) % 2 + 2 * lxorAux f (a / 2) (b / 2)

/-- 32-bit AND. -/
def land32 (a b : Nat) : Nat := landAux 32 a b

/-- 32-bit OR. -/
def lor32 (a b : Nat) : Nat := lorAux 32 a b

/-- 32-bit XOR. -/
def lxor32 (a b : Nat) : Nat := lxorAux 32 a b

/-- 32-bit NOT (complement within 32 bits). -/
def lnot32 (a : Nat) : Nat := 4294967295 - a % 4294967296

/-- 32-bit left rotation (the two shifted parts occupy disjoint bit
ranges, so their sum is the rotation). -/
def rotl32 (x s : Nat) : Nat :=
  x % 4294967296 * 2 ^ s % 4294967296 + x % 4294967296 / 2 ^ (32 - s)

/-- UTF-8 encoding of one character (`str.encode("utf-8")`). -/
def utf8EncodeChar (c : Char) : List Nat :=
  let n := c.toNat
  if n < 128 then [n]
  else if n < 2048 then [192 + n / 64, 128 + n % 64]
  else if n < 65536 then [224 + n / 4096, 128 + n / 64 % 64, 128 + n % 64]
  else [240 + n / 262144, 128 + n / 4096 % 64, 128 + n / 64 % 64, 128 + n % 64]

/-- UTF-8 encoding of a string as a byte list. -/
def utf8Encode (s : String) : List Nat := (s.data.map utf8EncodeChar).flatten

/-- The 64 MD5 sine-derived round constants. -/
def md5K : List Nat :=
  [0xd76aa478, 0xe8c7b756, 0x242070db, 0xc1bdceee,
   0xf57c0faf, 0x4787c62a, 0xa8304613, 0xfd469501,
   0x698098d8, 0x8b44f7af, 0xffff5bb1, 0x895cd7be,
   0x6b901122, 0xfd987193, 0xa679438e, 0x49b40821,
   0xf61e2562, 0xc040b340, 0x265e5a51, 0xe9b6c7aa,
   0xd62f105d, 0x02441453, 0xd8a1e681, 0xe7d3fbc8,
   0x21e1cde6, 0xc33707d6, 0xf4d50d87, 0x455a14ed,
   0xa9e3e905, 0xfcefa3f8, 0x676f02d9, 0x8d2a4c8a,
   0xfffa3942, 0x8771f681, 0x6d9d6122, 0xfde5380c,
   0xa4beea44, 0x4bdecfa9, 0xf6bb4b60, 0xbebfbc70,
   0x289b7ec6, 0xeaa127fa, 0xd4ef3085, 0x04881d05,
   0xd9d4d039, 0xe6db99e5, 0x1fa27cf8, 0xc4ac5665,
   0xf4292244, 0x432aff97, 0xab9423a7, 0xfc93a039,
   0x655b59c3, 0x8f0ccc92, 0xffeff47d, 0x85845dd1,
   0x6fa87e4f, 0xfe2ce6e0, 0xa3014314, 0x4e0811a1,
   0xf7537e82, 0xbd3af235, 0x2ad7d2bb, 0xeb86d391]

/-- The 64 MD5 per-round left-rotation amounts. -/
def md5S : List Nat :=
  [7, 12, 17, 22, 7, 12, 17, 22, 7, 12, 17, 22, 7, 12, 17, 22,
   5, 9, 14, 20, 5, 9, 14, 20, 5, 9, 14, 20, 5, 9, 14, 20,
   4, 11, 16, 23, 4, 11, 16, 23, 4, 11, 16, 23, 4, 11, 16, 23,
   6, 10, 15, 21, 6, 10, 15, 21, 6, 10, 15, 21, 6, 10, 15, 21]

/-- The MD5 round function at step `i`. -/
def md5F (i b c d : Nat) : Nat :=
  if i < 16 then lor32 (land32 b c) (land32 (lnot32 b) d)
  else if i < 32 then lor32 (land32 d b) (land32 (lnot32 d) c)
  else if i < 48 then lxor32 b (lxor32 c d)
  else lxor32 c (lor32 b (lnot32 d))

/-- The MD5 message-word index at step `i`. -/
def md5G (i : Nat) : Nat :=
  if i < 16 then i
  else if i < 32 then (5 * i + 1) % 16
  else if i < 48 then (3 * i + 5) % 16
  else 7 * i % 16

/-- The 8 little-endian bytes of the message bit length. -/
def md5LenBytes (n : Nat) : List Nat :=
  let b := 8 * n % 18446744073709551616
  [b % 256, b / 256 % 256, b / 65536 % 256, b / 16777216 % 256,
   b / 4294967296 % 256, b / 1099511627776 % 256,
   b / 281474976710656 % 256, b / 72057594037927936 % 256]

/-- MD5 padding: `0x80`, zeros to 56 mod 64, then the 64-bit length. -/
def md5Pad (msg : List Nat) : List Nat :=
  msg ++ 128 :: List.replicate ((119 - msg.length % 64) % 64) 0 ++
    md5LenBytes msg.length

/-- Split a (padded) byte list into 64-byte blocks. -/
def blocks64 : List Nat → List Nat → List (List Nat)
  | [], acc => if acc.isEmpty then [] else [acc.reverse]
  | b :: t, acc =>
    if acc.length = 63 then (b :: acc).reverse :: blocks64 t []
    else blocks64 t (b :: acc)

/-- Assemble little-endian 32-bit words from bytes. -/
def bytesToWordsLE : List Nat → List Nat
  | b0 :: b1 :: b2 :: b3 :: rest =>
    (b0 + 256 * b1 + 65536 * b2 + 16777216 * b3) :: bytesToWordsLE rest
  | _ => []

/-- The 64 MD5 rounds over one 16-word block, starting at step `i` with
`fuel` steps remaining. -/
def md5Rounds (m : List Nat) (i : Nat) :
    Nat → Nat × Nat × Nat × Nat → Nat × Nat × Nat × Nat
  | 0, st => st
  | f + 1, (a, b, c, d) =>
    let fv := (md5F i b c d + a + md5K.getD i 0 + m.getD (md5G i) 0) % 4294967296
    let b2 := (b + rotl32 fv (md5S.getD i 0)) % 4294967296
    md5Rounds m (i + 1) f (d, b2, b, c)

/-- Fold the MD5 compression function over the 64-byte blocks. -/
def md5Blocks : List (List Nat) → Nat × Nat × Nat × Nat → Nat × Nat × Nat × Nat
  | [], st => st
  | blk :: t, (h0, h1, h2, h3) =>
    let m := bytesToWordsLE blk
    let r := md5Rounds m 0 64 (h0, h1, h2, h3)
    md5Blocks t ((h0 + r.1) % 4294967296, (h1 + r.2.1) % 4294967296,
      (h2 + r.2.2.1) % 4294967296, (h3 + r.2.2.2) % 4294967296)

/-- The 4 little-endian bytes of a 32-bit word. -/
def wordLEBytes (w : Nat) : List Nat :=
  [w % 256, w / 256 % 256, w / 65536 % 256, w / 16777216 % 256]

/-- Lowercase hex digit. -/
def hexDigitChar : Nat → Char
  | 0 => '0' | 1 => '1' | 2 => '2' | 3 => '3' | 4 => '4'
  | 5 => '5' | 6 => '6' | 7 => '7' | 8 => '8' | 9 => '9'
  | 10 => 'a' | 11 => 'b' | 12 => 'c' | 13 => 'd' | 14 => 'e' | _ => 'f'

/-- The two hex characters of one byte. -/
def byteHexChars (b : Nat) : List Char :=
  [hexDigitChar (b / 16 % 16), hexDigitChar (b % 16)]

/-- `hashlib.md5(msg).hexdigest()`. -/
def md5Hexdigest (msg : List Nat) : String :=
  let r := md5Blocks (blocks64 (md5Pad msg) [])
    (0x67452301, 0xefcdab89, 0x98badcfe, 0x10325476)
  ⟨(((wordLEBytes r.1 ++ wordLEBytes r.2.1 ++ wordLEBytes r.2.2.1 ++
      wordLEBytes r.2.2.2).map byteHexChars).flatten)⟩

/-- `items.generate_news_id`: the MD5 hex digest of the UTF-8 encoded
url, except that a falsy (empty) url maps to `""`. -/
def generate_news_id (url : String) : String :=
  if url = "" then "" else md5Hexdigest (utf8Encode url)

/-! ## `extractor.py`: `MultiSiteExtractor._load_configs` -/

/-- A source entry as read from the JSON configuration; only what
`_load_configs` inspects is modelled (`enabled` defaults to true when
absent, `name` is only logged). -/
structure SrcConfig where
  name : String := ""
  enabled : Option Bool := none
deriving DecidableEq

/-- The outcome of opening and JSON-parsing the configuration file:
file missing, `json.JSONDecodeError` (or any other exception while
loading), or the parsed source map in file order. -/
inductive LoadResource where
  | missing
  | parseError (msg : String)
  | parsed (entries : List (String × SrcConfig))

/-- The registry state `_load_configs` populates: the `configs` map and
the parallel `extractors` map (modelled by its key list). -/
structure Registry where
  configs : List (String × SrcConfig)
  extractors : List String
deriving DecidableEq

/-- The `ConfigError` the specification postulates for a missing or
malformed resource.  The code never constructs one. -/
inductive ConfigError where
  | resourceMissing
  | malformed (msg : String)
deriving DecidableEq

/-- `MultiSiteExtractor._load_configs`.  A missing file is logged and
the method returns; `json.JSONDecodeError` and every other exception
are caught, logged and swallowed; so the registry stays empty and no
error propagates.  A parsed map loads exactly the entries whose
`enabled` is not `false`, in file order. -/
def load_configs (r : LoadResource) : Except ConfigError Registry :=
  match r with
  | .missing => .ok ⟨[], []⟩
  | .parseError _ => .ok ⟨[], []⟩
  | .parsed entries =>
    let kept := entries.filter (fun e => e.2.enabled.getD true)
    .ok ⟨kept, kept.map (·.1)⟩

/-! ## `datetime` model

Python's `datetime` is modelled by its timeline position: microseconds
since 0001-01-01 00:00:00 (proleptic Gregorian, as in
`datetime.toordinal`), plus an optional utcoffset in minutes (`None` =
naive).  Arithmetic with `timedelta` is then plain integer arithmetic;
the civil (year, month, day, …) view is recovered through the calendar
functions below, which follow CPython's `_ord2ymd`. -/

/-- A Python `datetime`: microseconds since 0001-01-01 00:00:00 and the
tz utcoffset in minutes (`none` = naive). -/
structure PyDateTime where
  usec : Int
  tz : Option Int
deriving DecidableEq

/-- Gregorian leap year. -/
def isLeapYear (y : Nat) : Bool := y % 4 = 0 && (y % 100 ≠ 0 || y % 400 = 0)

/-- Days in a month. -/
def monthDays (y m : Nat) : Nat :=
  if m = 2 then (if isLeapYear y then 29 else 28)
  else if m = 4 ∨ m = 6 ∨ m = 9 ∨ m = 11 then 30
  else 31

/-- Days in the year strictly before month `m` (1-based). -/
def daysBeforeMonth (y m : Nat) : Nat :=
  [0, 31, 59, 90, 120, 151, 181, 212, 243, 273, 304, 334].getD (m - 1) 0 +
    (if 2 < m ∧ isLeapYear y then 1 else 0)

/-- Days strictly before January 1st of year `y`. -/
def daysBeforeYear (y : Nat) : Nat :=
  (y - 1) * 365 + (y - 1) / 4 - (y - 1) / 100 + (y - 1) / 400

/-- `datetime.toordinal`: day number of `y-m-d`, day 1 = 0001-01-01. -/
def toOrdinal (y m d : Nat) : Nat := daysBeforeYear y + daysBeforeMonth y m + d

/-- Month search inside a year: subtract month lengths until the
remaining 0-based day index fits. -/
def ord2ymdMonth (y : Nat) : Nat → Nat → Nat → Nat × Nat
  | _, m, 0 => (m, 1)
  | n, m, fuel + 1 =>
    let dim := monthDays y m
    if n < dim then (m, n + 1) else ord2ymdMonth y (n - dim) (m + 1) fuel

/-- Inverse of `toOrdinal` (CPython `_ord2ymd`): 400/100/4/1-year cycle
division, then the month search. -/
def fromOrdinal (nn : Nat) : Nat × Nat × Nat :=
  let n := nn - 1
  let n400 := n / 146097
  let r400 := n % 146097
  let n100 := r400 / 36524
  let r100 := r400 % 36524
  let n4 := r100 / 1461
  let r4 := r100 % 1461
  let n1 := r4 / 365
  let n0 := r4 % 365
  let year := n400 * 400 + n100 * 100 + n4 * 4 + n1 + 1
  if n1 = 4 ∨ n100 = 4 then (year - 1, 12, 31)
  else
    let md := ord2ymdMonth year n0 1 12
    (year, md.1, md.2)

/-- The `datetime(...)` constructor with CPython's range checks; a
`ValueError` is `none`. -/
def mkDatetime (y mo d h mi s us : Nat) (tz : Option Int) : Option PyDateTime :=
  if 1 ≤ y ∧ y ≤ 9999 ∧ 1 ≤ mo ∧ mo ≤ 12 ∧ 1 ≤ d ∧ d ≤ monthDays y mo ∧
      h ≤ 23 ∧ mi ≤ 59 ∧ s ≤ 59 ∧ us ≤ 999999 then
    some ⟨(((toOrdinal y mo d - 1) * 86400 + h * 3600 + mi * 60 + s) * 1000000 + us : Nat),
      tz⟩
  else none

/-- Decimal digits of `n`, most significant first (20 digits of fuel
covers every `Nat` arising here). -/
def natDigitsAux : Nat → Nat → List Char
  | 0, _ => []
  | fuel + 1, n =>
    if n < 10 then [hexDigitChar n]
    else natDigitsAux fuel (n / 10) ++ [hexDigitChar (n % 10)]

/-- Decimal digits of `n`. -/
def natToChars (n : Nat) : List Char := natDigitsAux 20 n

/-- Decimal of `n`, left-padded with zeros to width `w`. -/
def padZeros (w n : Nat) : List Char :=
  let d := natToChars n
  List.replicate (w - d.length) '0' ++ d

/-- `datetime.isoformat()` character list. -/
def isoformatChars (dt : PyDateTime) : List Char :=
  let t := dt.usec.toNat
  let us := t % 1000000
  let sec := t / 1000000
  let days := sec / 86400
  let tod := sec % 86400
  let ymd := fromOrdinal (days + 1)
  padZeros 4 ymd.1 ++ '-' :: padZeros 2 ymd.2.1 ++ '-' :: padZeros 2 ymd.2.2 ++
    'T' :: padZeros 2 (tod / 3600) ++ ':' :: padZeros 2 (tod % 3600 / 60) ++
    ':' :: padZeros 2 (tod % 60) ++
    (if us = 0 then [] else '.' :: padZeros 6 us) ++
    (match dt.tz with
     | none => []
     | some o =>
       (if o < 0 then '-' else '+') ::
         padZeros 2 (o.natAbs / 60) ++ ':' :: padZeros 2 (o.natAbs % 60))

/-- `datetime.isoformat()`. -/
def pyIsoformat (dt : PyDateTime) : String := ⟨isoformatChars dt⟩

/-! ## A small `re` engine

`date_parser.py` uses `re.search` with patterns built from character
classes (`\d`, `\w`, `\s`) with greedy counted repetition, literals, the
alternation `(AM|PM)`, optional non-capturing groups, and numbered
capture groups.  The `RE` type below covers exactly those constructs;
the matcher implements the standard leftmost search with greedy
backtracking, in continuation-passing style. -/

/-- `\d` (ASCII, as in the matched inputs). -/
def reDigit (c : Char) : Bool := '0' ≤ c && c ≤ '9'

/-- `\w` (ASCII letters, digits, underscore). -/
def reWord (c : Char) : Bool := c.isAlpha || reDigit c || c = '_'

/-- `\s`. -/
def reSpace (c : Char) : Bool := pyWs c

/-- Regex abstract syntax: greedy counted class repetition (with an
optional capture group), literals, captured literal alternation,
sequencing, and the greedy optional. -/
inductive RE where
  | cls (p : Char → Bool) (grp : Option Nat) (lo : Nat) (hi : Option Nat)
  | lit (cs : List Char) (ci : Bool)
  | litAlt (grp : Nat) (alts : List (List Char)) (ci : Bool)
  | seq (a b : RE)
  | opt (r : RE)

/-- Character comparison, optionally case-insensitive (`re.IGNORECASE`). -/
def ciEqChar (ci : Bool) (a b : Char) : Bool :=
  if ci then pyLowerChar a = pyLowerChar b else a = b

/-- Match a literal prefix, returning the rest of the input. -/
def litMatch (ci : Bool) : List Char → List Char → Option (List Char)
  | [], s => some s
  | _ :: _, [] => none
  | p :: ps, c :: cs => if ciEqChar ci p c then litMatch ci ps cs else none

/-- Greedy repetition driver: try `f n`, `f (n-1)`, …, `f lo`. -/
def tryCounts (f : Nat → Option α) (lo : Nat) : Nat → Option α
  | 0 => if lo = 0 then f 0 else none
  | n + 1 =>
    if n + 1 < lo then none
    else
      match f (n + 1) with
      | some r => some r
      | none => tryCounts f lo n

/-- Captured groups of a match. -/
abbrev ReCaps := List (Nat × List Char)

/-- Alternation driver for `litAlt`: try the alternatives in listed
order, backtracking into the continuation. -/
def altTry (g : Nat) (ci : Bool) (s : List Char) (caps : ReCaps)
    (k : List Char → ReCaps → Option ReCaps) : List (List Char) → Option ReCaps
  | [] => none
  | a :: rest =>
    match litMatch ci a s with
    | some r =>
      (match k r (caps ++ [(g, s.take a.length)]) with
       | some res => some res
       | none => altTry g ci s caps k rest)
    | none => altTry g ci s caps k rest

/-- The backtracking matcher, in continuation-passing style: `reMatch r
s caps k` matches `r` against a prefix of `s` and hands the rest and
the extended captures to `k`, backtracking while `k` fails. -/
def reMatch : RE → List Char → ReCaps →
    (List Char → ReCaps → Option ReCaps) → Option ReCaps
  | .cls p grp lo hi, s, caps, k =>
    let run := (s.takeWhile p).length
    let mx := match hi with | none => run | some h => min run h
    tryCounts
      (fun n =>
        k (s.drop n) (match grp with | none => caps | some g => caps ++ [(g, s.take n)]))
      lo mx
  | .lit cs ci, s, caps, k =>
    (match litMatch ci cs s with
     | some rest => k rest caps
     | none => none)
  | .litAlt g alts ci, s, caps, k => altTry g ci s caps k alts
  | .seq a b, s, caps, k => reMatch a s caps (fun s2 c2 => reMatch b s2 c2 k)
  | .opt r, s, caps, k =>
    (match reMatch r s caps k with
     | some res => some res
     | none => k s caps)

/-- `re.search`: try a match at every start position, leftmost first. -/
def reSearch (r : RE) : List Char → Option ReCaps
  | [] => reMatch r [] [] (fun _ caps => some caps)
  | c :: t =>
    match reMatch r (c :: t) [] (fun _ caps => some caps) with
    | some caps => some caps
    | none => reSearch r t

/-- `match.group(g)`. -/
def capGet (caps : ReCaps) (g : Nat) : Option (List Char) :=
  (caps.find? (fun c => c.1 = g)).map (·.2)

/-- `int()` on a run of ASCII digits. -/
def digitsVal (l : List Char) : Nat :=
  l.foldl (fun a c => a * 10 + (c.toNat - 48)) 0

/-! ## `date_parser.py`: DateParser -/

/-- The unit of a numeric relative-time pattern. -/
inductive RelUnit where
  | minutes | hours | days | weeks | months | years
deriving DecidableEq

/-- A value of `DateParser.RELATIVE_PATTERNS`: either a fixed number of
minutes or a numeric pattern family. -/
inductive RelValue where
  | fixed (minutes : Nat)
  | unit (u : RelUnit)
deriving DecidableEq

/-- `DateParser.RELATIVE_PATTERNS`, in dict insertion order. -/
def RELATIVE_PATTERNS : List (String × RelValue) :=
  [("just now", .fixed 0), ("a moment ago", .fixed 0), ("seconds ago", .fixed 0),
   ("a second ago", .fixed 0), ("a minute ago", .fixed 1), ("minutes ago", .unit .minutes),
   ("an hour ago", .fixed 60), ("hours ago", .unit .hours), ("a day ago", .fixed 1440),
   ("days ago", .unit .days), ("yesterday", .fixed 1440), ("a week ago", .fixed 10080),
   ("weeks ago", .unit .weeks), ("a month ago", .fixed 43200), ("months ago", .unit .months),
   ("a year ago", .fixed 525600), ("years ago", .unit .years)]

/-- `DateParser.MONTH_MAPPING` (full names and abbreviations; the
duplicate `may` key collapses to the same value). -/
def MONTH_MAPPING : List (String × Nat) :=
  [("january", 1), ("february", 2), ("march", 3), ("april", 4), ("may", 5),
   ("june", 6), ("july", 7), ("august", 8), ("september", 9), ("october", 10),
   ("november", 11), ("december", 12),
   ("jan", 1), ("feb", 2), ("mar", 3), ("apr", 4), ("jun", 6), ("jul", 7),
   ("aug", 8), ("sep", 9), ("sept", 9), ("oct", 10), ("nov", 11), ("dec", 12)]

/-- `MONTH_MAPPING.get(key)`. -/
def monthLookup (s : String) : Option Nat :=
  (MONTH_MAPPING.find? (fun e => e.1 = s)).map (·.2)

/-- `re.findall(r"\d+", text)[0]`: the first maximal digit run. -/
def firstIntegerL : List Char → Option Nat
  | [] => none
  | c :: t =>
    if reDigit c then some (digitsVal (c :: t.takeWhile reDigit))
    else firstIntegerL t

/-- The `timedelta` (in seconds) of a numeric relative pattern: months
are approximated as 30 days and years as 365 days. -/
def unitSeconds (u : RelUnit) (n : Nat) : Nat :=
  match u with
  | .minutes => n * 60
  | .hours => n * 3600
  | .days => n * 86400
  | .weeks => n * 604800
  | .months => n * 30 * 86400
  | .years => n * 365 * 86400

/-- `datetime.max` on the microsecond timeline whose zero is
0001-01-01 00:00:00 (`datetime.min`): 9999-12-31 23:59:59.999999. -/
def dtMaxUsec : Int := 315537897599999999

/-- `datetime.now() - timedelta(seconds=secs)`: the `timedelta`
constructor raises `OverflowError` beyond ±999999999 days, and so does
the subtraction when the result leaves the `datetime` range; `.error`
models the propagating exception. -/
def nowMinus (now : Int) (secs : Nat) : Except Unit PyDateTime :=
  if secs / 86400 ≤ 999999999 ∧ 0 ≤ now - (secs : Int) * 1000000 ∧
      now - (secs : Int) * 1000000 ≤ dtMaxUsec then
    .ok ⟨now - (secs : Int) * 1000000, none⟩
  else .error ()

/-- The scan loop of `_parse_relative_time`: first table pattern that is
a substring of the lowercased text wins; a numeric pattern with no
integer anywhere in the (original) text falls through to the next
pattern.  An `OverflowError` from the subtraction propagates
(`.error`); `_parse_relative_time` has no handler. -/
def relLoop (now : Int) (sData lowData : List Char) :
    List (String × RelValue) → Except Unit (Option PyDateTime)
  | [] => .ok none
  | (pat, v) :: rest =>
    if hasSubL pat.data lowData then
      match v with
      | .fixed m =>
        (match nowMinus now (m * 60) with
         | .ok d => .ok (some d)
         | .error e => .error e)
      | .unit u =>
        match firstIntegerL sData with
        | some n =>
          (match nowMinus now (unitSeconds u n) with
           | .ok d => .ok (some d)
           | .error e => .error e)
        | none => relLoop now sData lowData rest
    else relLoop now sData lowData rest

/-- `DateParser._parse_relative_time` (`datetime.now()` is the `now`
parameter, in microseconds on the timeline). -/
def parse_relative_time (now : Int) (s : String) : Except Unit (Option PyDateTime) :=
  relLoop now s.data (pyLower s).data RELATIVE_PATTERNS

/-- The first table entry of `RELATIVE_PATTERNS` whose phrase occurs in
the lowercased text — the entry `_parse_relative_time`'s scan settles
on (for a numeric entry, provided the text contains an integer). -/
def firstRelMatch (lowData : List Char) : Option RelValue :=
  (RELATIVE_PATTERNS.find? (fun pv => hasSubL pv.1.data lowData)).map (·.2)

/-- The regex of `_parse_cnn_date` is
`(\d{1,2}):(\d{2})\s*(AM|PM)\s*\w+,\s*(?:\w+,?\s+)?(\w+)\s+(\d{1,2}),\s+(\d{4})`
(compiled with `re.IGNORECASE`, which only affects the `AM|PM`
literal), split into the part after the timezone word and the full
pattern.  The `,\s*(?:\w+,?\s+)?(\w+)\s+(\d{1,2}),\s+(\d{4})` part: -/
def cnnTail : RE :=
  .seq (.lit [','] false)
  (.seq (.cls reSpace none 0 none)
  (.seq (.opt (.seq (.cls reWord none 1 none)
                (.seq (.opt (.lit [','] false)) (.cls reSpace none 1 none))))
  (.seq (.cls reWord (some 4) 1 none)
  (.seq (.cls reSpace none 1 none)
  (.seq (.cls reDigit (some 5) 1 (some 2))
  (.seq (.lit [','] false)
  (.seq (.cls reSpace none 1 none)
        (.cls reDigit (some 6) 4 (some 4)))))))))

/-- The full Form A regex: time, AM/PM, the (uncaptured) timezone word,
then `cnnTail` with the date captures. -/
def cnnRE : RE :=
  .seq (.cls reDigit (some 1) 1 (some 2))
  (.seq (.lit [':'] false)
  (.seq (.cls reDigit (some 2) 2 (some 2))
  (.seq (.cls reSpace none 0 none)
  (.seq (.litAlt 3 [['A', 'M'], ['P', 'M']] true)
  (.seq (.cls reSpace none 0 none)
  (.seq (.cls reWord none 1 none) cnnTail))))))

/-- `DateParser._parse_cnn_date`: search the Form A pattern, convert
12-hour to 24-hour, resolve the month name; a failed month lookup or a
`datetime` range error yields `None`. -/
def parse_cnn_date (s : String) : Option PyDateTime :=
  match reSearch cnnRE s.data with
  | none => none
  | some caps =>
    match capGet caps 1, capGet caps 2, capGet caps 3,
        capGet caps 4, capGet caps 5, capGet caps 6 with
    | some g1, some g2, some g3, some g4, some g5, some g6 =>
      let hour0 := digitsVal g1
      let hour :=
        if pyUpper ⟨g3⟩ = "PM" ∧ hour0 ≠ 12 then hour0 + 12
        else if pyUpper ⟨g3⟩ = "AM" ∧ hour0 = 12 then 0
        else hour0
      match monthLookup (pyLower ⟨g4⟩) with
      | none => none
      | some mo => mkDatetime (digitsVal g6) mo (digitsVal g5) hour (digitsVal g2) 0 0 none
    | _, _, _, _, _, _ => none

/-- Pattern 1 of `_parse_bbc_date`: `(\d{1,2})\s+(\w+)\s+(\d{4})`. -/
def bbc1RE : RE :=
  .seq (.cls reDigit (some 1) 1 (some 2))
  (.seq (.cls reSpace none 1 none)
  (.seq (.cls reWord (some 2) 1 none)
  (.seq (.cls reSpace none 1 none)
        (.cls reDigit (some 3) 4 (some 4)))))

/-- Pattern 2 of `_parse_bbc_date`: `(\w+)\s+(\d{1,2}),?\s+(\d{4})`. -/
def bbc2RE : RE :=
  .seq (.cls reWord (some 1) 1 none)
  (.seq (.cls reSpace none 1 none)
  (.seq (.cls reDigit (some 2) 1 (some 2))
  (.seq (.opt (.lit [','] false))
  (.seq (.cls reSpace none 1 none)
        (.cls reDigit (some 3) 4 (some 4))))))

/-- `DateParser._parse_bbc_date`: relative time first (its
`OverflowError` is not caught here and propagates); then pattern 1
(a failed month lookup falls through to pattern 2, but a `datetime`
range error aborts the whole `try` block); then pattern 2. -/
def parse_bbc_date (now : Int) (s : String) : Except Unit (Option PyDateTime) :=
  match parse_relative_time now s with
  | .error e => .error e
  | .ok (some d) => .ok (some d)
  | .ok none => .ok <|
    let step1 : Option (Option PyDateTime) :=
      match reSearch bbc1RE s.data with
      | none => none
      | some caps =>
        match capGet caps 1, capGet caps 2, capGet caps 3 with
        | some d, some mn, some y =>
          (match monthLookup (pyLower ⟨mn⟩) with
           | none => none
           | some mo => some (mkDatetime (digitsVal y) mo (digitsVal d) 0 0 0 0 none))
        | _, _, _ => none
    match step1 with
    | some r => r
    | none =>
      match reSearch bbc2RE s.data with
      | none => none
      | some caps =>
        match capGet caps 1, capGet caps 2, capGet caps 3 with
        | some mn, some d, some y =>
          (match monthLookup (pyLower ⟨mn⟩) with
           | none => none
           | some mo => mkDatetime (digitsVal y) mo (digitsVal d) 0 0 0 0 none)
        | _, _, _ => none

/-- Exactly `n` ASCII digits, returning their value and the rest. -/
def parseNDigits (n : Nat) (l : List Char) : Option (Nat × List Char) :=
  let d := l.take n
  if d.length = n ∧ d.all reDigit then some (digitsVal d, l.drop n) else none

/-- Fractional seconds of `datetime.fromisoformat`: exactly 3 or 6
digits, scaled to microseconds. -/
def parseIsoFrac (l : List Char) : Option (Nat × List Char) :=
  match parseNDigits 6 l with
  | some r => some r
  | none =>
    match parseNDigits 3 l with
    | some (v, rest) => some (v * 1000, rest)
    | none => none

/-- Time-of-day part of `datetime.fromisoformat`:
`HH[:MM[:SS[.fff[fff]]]]`. -/
def parseIsoTime (l : List Char) : Option ((Nat × Nat × Nat × Nat) × List Char) :=
  match parseNDigits 2 l with
  | none => none
  | some (h, r1) =>
    match r1 with
    | ':' :: r2 =>
      (match parseNDigits 2 r2 with
       | none => none
       | some (mi, r3) =>
         match r3 with
         | ':' :: r4 =>
           (match parseNDigits 2 r4 with
            | none => none
            | some (s, r5) =>
              match r5 with
              | '.' :: r6 =>
                (match parseIsoFrac r6 with
                 | none => none
                 | some (us, r7) => some ((h, mi, s, us), r7))
              | _ => some ((h, mi, s, 0), r5))
         | _ => some ((h, mi, 0, 0), r3))
    | _ => some ((h, 0, 0, 0), r1)

/-- Timezone part of `datetime.fromisoformat`: `±HH:MM[:SS[.ffffff]]`
(the seconds part, when present, is parsed and ignored — the offsets in
play are whole minutes). -/
def parseIsoTz (l : List Char) : Option (Option Int × List Char) :=
  match l with
  | [] => some (none, [])
  | c :: t =>
    if c = '+' ∨ c = '-' then
      match parseNDigits 2 t with
      | none => none
      | some (hh, r1) =>
        match r1 with
        | ':' :: r2 =>
          (match parseNDigits 2 r2 with
           | none => none
           | some (mm, r3) =>
             let off : Int := (hh * 60 + mm : Nat)
             let rest :=
               match r3 with
               | ':' :: r4 =>
                 (match parseNDigits 2 r4 with
                  | some (_, r5) => some r5
                  | none => none)
               | _ => some r3
             match rest with
             | none => none
             | some r => some (some (if c = '-' then -off else off), r))
        | _ => none
    else none

/-- Modelled library behaviour: `datetime.fromisoformat` (the strict
pre-3.11 grammar, which is what the code targets — it strips a trailing
`Z` itself): `YYYY-MM-DD` optionally followed by one separator
character and `HH[:MM[:SS[.fff[fff]]]][±HH:MM[:SS]]`. -/
def pyFromIsoformat (s : String) : Option PyDateTime :=
  match parseNDigits 4 s.data with
  | none => none
  | some (y, r1) =>
    match r1 with
    | '-' :: r2 =>
      (match parseNDigits 2 r2 with
       | none => none
       | some (mo, r3) =>
         match r3 with
         | '-' :: r4 =>
           (match parseNDigits 2 r4 with
            | none => none
            | some (d, r5) =>
              match r5 with
              | [] => mkDatetime y mo d 0 0 0 0 none
              | _ :: r6 =>
                match parseIsoTime r6 with
                | none => none
                | some ((h, mi, sec, us), r7) =>
                  match parseIsoTz r7 with
                  | some (tz, []) => mkDatetime y mo d h mi sec us tz
                  | _ => none)
         | _ => none)
    | _ => none

/-- `DateParser._parse_iso8601`: a trailing `Z` is replaced by
`+00:00`, then `datetime.fromisoformat`. -/
def parse_iso8601 (s : String) : Option PyDateTime :=
  let s2 : String := if pyEnds s "Z" then ⟨s.data.dropLast⟩ ++ "+00:00" else s
  pyFromIsoformat s2

/-! ### `strptime` (modelled for the directives the format list uses)

CPython compiles each directive to an ordered regex alternation; with
the non-digit separators of `_parse_common_formats`'s formats the match
is deterministic, so each directive is a direct parser here.  Literal
whitespace in a format matches a nonempty whitespace run. -/

/-- A `strptime` format token. -/
inductive FmtTok where
  | lit (c : Char)
  | ws
  | Y | m | d | H | M | S | f | B | b

/-- `%m`: `1[0-2]|0[1-9]|[1-9]`. -/
def dirMonth : List Char → Option (Nat × List Char)
  | a :: bb :: t =>
    if a = '1' ∧ '0' ≤ bb ∧ bb ≤ '2' then some (digitsVal [a, bb], t)
    else if a = '0' ∧ '1' ≤ bb ∧ bb ≤ '9' then some (digitsVal [a, bb], t)
    else if '1' ≤ a ∧ a ≤ '9' then some (digitsVal [a], bb :: t)
    else none
  | [a] => if '1' ≤ a ∧ a ≤ '9' then some (digitsVal [a], []) else none
  | [] => none

/-- `%d`: `3[01]|[12]\d|0[1-9]|[1-9]`. -/
def dirDay : List Char → Option (Nat × List Char)
  | a :: bb :: t =>
    if a = '3' ∧ ('0' ≤ bb ∧ bb ≤ '1') then some (digitsVal [a, bb], t)
    else if ('1' ≤ a ∧ a ≤ '2') ∧ reDigit bb then some (digitsVal [a, bb], t)
    else if a = '0' ∧ '1' ≤ bb ∧ bb ≤ '9' then some (digitsVal [a, bb], t)
    else if '1' ≤ a ∧ a ≤ '9' then some (digitsVal [a], bb :: t)
    else none
  | [a] => if '1' ≤ a ∧ a ≤ '9' then some (digitsVal [a], []) else none
  | [] => none

/-- `%H`: `2[0-3]|[0-1]\d|\d`. -/
def dirHour : List Char → Option (Nat × List Char)
  | a :: bb :: t =>
    if a = '2' ∧ '0' ≤ bb ∧ bb ≤ '3' then some (digitsVal [a, bb], t)
    else if ('0' ≤ a ∧ a ≤ '1') ∧ reDigit bb then some (digitsVal [a, bb], t)
    else if reDigit a then some (digitsVal [a], bb :: t)
    else none
  | [a] => if reDigit a then some (digitsVal [a], []) else none
  | [] => none

/-- `%M` and `%S` share `[0-5]\d|\d` (with `%S` also allowing `6[0-1]`,
irrelevant for valid times). -/
def dirMinSec : List Char → Option (Nat × List Char)
  | a :: bb :: t =>
    if ('0' ≤ a ∧ a ≤ '5') ∧ reDigit bb then some (digitsVal [a, bb], t)
    else if a = '6' ∧ '0' ≤ bb ∧ bb ≤ '1' then some (digitsVal [a, bb], t)
    else if reDigit a then some (digitsVal [a], bb :: t)
    else none
  | [a] => if reDigit a then some (digitsVal [a], []) else none
  | [] => none

/-- `%f`: 1 to 6 digits, zero-padded on the right to microseconds. -/
def dirFrac (l : List Char) : Option (Nat × List Char) :=
  let d := (l.takeWhile reDigit).take 6
  if d.isEmpty then none
  else some (digitsVal d * 10 ^ (6 - d.length), l.drop d.length)

/-- Full month names, longest first (as CPython's `TimeRE` orders the
alternation), with their numbers. -/
def monthNamesFull : List (String × Nat) :=
  [("september", 9), ("february", 2), ("november", 11), ("december", 12),
   ("january", 1), ("october", 10), ("august", 8), ("march", 3), ("april", 4),
   ("june", 6), ("july", 7), ("may", 5)]

/-- Abbreviated month names with their numbers. -/
def monthNamesAbbr : List (String × Nat) :=
  [("jan", 1), ("feb", 2), ("mar", 3), ("apr", 4), ("may", 5), ("jun", 6),
   ("jul", 7), ("aug", 8), ("sep", 9), ("oct", 10), ("nov", 11), ("dec", 12)]

/-- `%B` / `%b`: case-insensitive month-name prefix match. -/
def matchMonthName : List (String × Nat) → List Char → Option (Nat × List Char)
  | [], _ => none
  | (nm, v) :: rest, l =>
    if (l.take nm.length).map pyLowerChar = nm.data then some (v, l.drop nm.length)
    else matchMonthName rest l

/-- The fields `strptime` accumulates, with CPython's defaults. -/
structure TmAcc where
  y : Nat := 1900
  m : Nat := 1
  d : Nat := 1
  hh : Nat := 0
  mm : Nat := 0
  ss : Nat := 0
  us : Nat := 0

/-- The `strptime` matching loop; leftover input is a `ValueError`. -/
def strptimeLoop (acc : TmAcc) : List FmtTok → List Char → Option TmAcc
  | [], [] => some acc
  | [], _ :: _ => none
  | tok :: ft, l =>
    match tok with
    | .lit c =>
      (match l with
       | c2 :: t => if c2 = c then strptimeLoop acc ft t else none
       | [] => none)
    | .ws =>
      let r := l.dropWhile reSpace
      if r.length < l.length then strptimeLoop acc ft r else none
    | .Y =>
      (match parseNDigits 4 l with
       | some (v, r) => strptimeLoop { acc with y := v } ft r
       | none => none)
    | .m =>
      (match dirMonth l with
       | some (v, r) => strptimeLoop { acc with m := v } ft r
       | none => none)
    | .d =>
      (match dirDay l with
       | some (v, r) => strptimeLoop { acc with d := v } ft r
       | none => none)
    | .H =>
      (match dirHour l with
       | some (v, r) => strptimeLoop { acc with hh := v } ft r
       | none => none)
    | .M =>
      (match dirMinSec l with
       | some (v, r) => strptimeLoop { acc with mm := v } ft r
       | none => none)
    | .S =>
      (match dirMinSec l with
       | some (v, r) => strptimeLoop { acc with ss := v } ft r
       | none => none)
    | .f =>
      (match dirFrac l with
       | some (v, r) => strptimeLoop { acc with us := v } ft r
       | none => none)
    | .B =>
      (match matchMonthName monthNamesFull l with
       | some (v, r) => strptimeLoop { acc with m := v } ft r
       | none => none)
    | .b =>
      (match matchMonthName monthNamesAbbr l with
       | some (v, r) => strptimeLoop { acc with m := v } ft r
       | none => none)

/-- `datetime.strptime(s, fmt)`; the `datetime` constructor's range
checks apply. -/
def pyStrptime (fmt : List FmtTok) (s : String) : Option PyDateTime :=
  match strptimeLoop {} fmt s.data with
  | none => none
  | some acc => mkDatetime acc.y acc.m acc.d acc.hh acc.mm acc.ss acc.us none

/-- The format list of `_parse_common_formats`, in order. -/
def common_formats : List (List FmtTok) :=
  [[.Y, .lit '-', .m, .lit '-', .d, .ws, .H, .lit ':', .M, .lit ':', .S],
   [.Y, .lit '-', .m, .lit '-', .d],
   [.d, .lit '/', .m, .lit '/', .Y],
   [.m, .lit '/', .d, .lit '/', .Y],
   [.d, .lit '-', .m, .lit '-', .Y],
   [.Y, .lit '/', .m, .lit '/', .d],
   [.B, .ws, .d, .lit ',', .ws, .Y],
   [.b, .ws, .d, .lit ',', .ws, .Y],
   [.d, .ws, .B, .ws, .Y],
   [.d, .ws, .b, .ws, .Y],
   [.Y, .lit '-', .m, .lit '-', .d, .ws, .H, .lit ':', .M, .lit ':', .S, .lit '.', .f]]

/-- Try formats in order; first success wins. -/
def tryFormats (s : String) : List (List FmtTok) → Option PyDateTime
  | [] => none
  | fmt :: rest =>
    match pyStrptime fmt s with
    | some d => some d
    | none => tryFormats s rest

/-- `DateParser._parse_common_formats`: first format that parses. -/
def parse_common_formats (s : String) : Option PyDateTime :=
  tryFormats s common_formats

/-- `DateParser._auto_parse`: iso8601, relative, common formats, CNN,
BBC — first success wins; every parser failure is caught. -/
def auto_parse (now : Int) (s : String) : Option PyDateTime :=
  match parse_iso8601 s with
  | some d => some d
  | none =>
    match parse_relative_time now s with
    | .ok (some d) => some d
    | _ =>
      match parse_common_formats s with
      | some d => some d
      | none =>
        match parse_cnn_date s with
        | some d => some d
        | none =>
          match parse_bbc_date now s with
          | .ok r => r
          | .error _ => none

/-- `DateParser.parse`: falsy input is `None`; the input is stripped and
dispatched on `parser_type`, every unknown type falling back to auto
detection. -/
def DateParser_parse (now : Int) (date_string : String) (parser_type : String) :
    Except Unit (Option PyDateTime) :=
  if date_string = "" then .ok none
  else
    let ds := pyStrip date_string
    if parser_type = "iso8601" then .ok (parse_iso8601 ds)
    else if parser_type = "cnn_date" then .ok (parse_cnn_date ds)
    else if parser_type = "bbc_date" then parse_bbc_date now ds
    else if parser_type = "relative" then parse_relative_time now ds
    else .ok (auto_parse now ds)

/-- `date_parser.parse_date`, the module-level entry point, at the
value level: an uncaught `OverflowError` (possible only for the
`relative` and `bbc_date` strategies; `auto` catches everything) is
collapsed to `none` here — theorems about the raising strategies use
`DateParser_parse` directly. -/
def parse_date (now : Int) (date_string parser_type : String) : Option PyDateTime :=
  match DateParser_parse now date_string parser_type with
  | .ok r => r
  | .error _ => none

/-! ## `pipelines.py`: `DataCleaningPipeline._standardize_time` -/

/-- A value that is either a `str` or a `datetime`. -/
inductive PyStrOrDT where
  | str (s : String)
  | dt (d : PyDateTime)
deriving DecidableEq

/-- `DataCleaningPipeline._standardize_time`: a `datetime` is
serialized to ISO-8601, a string is stripped and passed through. -/
def standardize_time (v : PyStrOrDT) : String :=
  match v with
  | .dt d => pyIsoformat d
  | .str s => pyStrip s

/-! ## `extractor.py`: DataExtractor -/

/-- One field's selector configuration (`FieldConfig`): the two selector
slots, the slot priority, and the optional filter / parser / join /
required entries.  A single selector string in the JSON is promoted by
the code to a one-element list, so slots are lists here. -/
structure FieldConfig where
  css : List String := []
  xpath : List String := []
  priority : Option String := none
  filter : Option String := none
  parser : Option String := none
  join : Option String := none
  required : Bool := false

/-- A fetched document, exposing the two selector query languages.
`none` models a query that raises; `some []` a query that matches
nothing. -/
structure PyResponse where
  css : String → Option (List String)
  xpath : String → Option (List String)

/-- A field value: a single string or a list of strings (Python returns
`result[0]` for singleton lists and the list otherwise). -/
inductive EV where
  | s (x : String)
  | l (xs : List String)
deriving DecidableEq

/-- Python truthiness of an extracted value. -/
def evTruthy : EV → Bool
  | .s x => x ≠ ""
  | .l xs => xs ≠ []

/-- `field_config.get(key, [])` for the two selector slots. -/
def slotGet (cfg : FieldConfig) (key : String) : List String :=
  if key = "css" then cfg.css else if key = "xpath" then cfg.xpath else []

/-- The invalid-image substring block list of `_apply_filter`. -/
def invalid_patterns : List String :=
  ["icon", "logo", "placeholder", "avatar", "sprite", "blank", "spacer", "pixel"]

/-- The order-preserving dedup loop shared by the `unique` filter. -/
def cleanDupLoop : List String → List String → List String
  | [], _ => []
  | x :: t, seen => if x ∈ seen then cleanDupLoop t seen else x :: cleanDupLoop t (x :: seen)

/-- `DataExtractor._apply_filter`: `valid_image`, `remove_empty`,
`unique`; an unknown name logs a warning and passes the data through. -/
def apply_filter (data : List String) (filter_name : String) : List String :=
  if filter_name = "valid_image" then
    data.filter (fun url =>
      !(invalid_patterns.any (fun p => pyContains (pyLower url) p)) &&
      decide (20 < url.length) &&
      (pyStarts url "http://" || pyStarts url "https://" || pyStarts url "//"))
  else if filter_name = "remove_empty" then
    data.filter (fun item => item ≠ "" && stripL item.data ≠ [])
  else if filter_name = "unique" then
    cleanDupLoop data []
  else data

/-- `DataExtractor._apply_parser`: a parser name containing `date` (or
one of the listed aliases) goes through `parse_date`; a successful
parse returns the `isoformat` string, a parse exception returns `None`
— but a parse that merely returns `None` falls through to the final
`return data`, as does every non-date parser name. -/
def apply_parser_fn (now : Int) (data : String) (parser_name : String) : Option String :=
  if pyContains (pyLower parser_name) "date" ||
      parser_name ∈ ["auto", "iso8601", "cnn_date", "bbc_date"] then
    match DateParser_parse now data parser_name with
    | .ok (some d) => some (pyIsoformat d)
    | .ok none => some data
    | .error _ => none
  else some data

/-- `DataExtractor._process_result`: strip and drop empty elements,
apply the filter, apply the parser elementwise keeping only truthy
outcomes, then join, or return the single element / the whole list. -/
def process_result (now : Int) (result : List String) (cfg : FieldConfig) : Option EV :=
  if result = [] then none
  else
    let r1 := (result.map pyStrip).filter (fun x => x ≠ "")
    if r1 = [] then none
    else
      let r2 := match cfg.filter with
        | some fn => apply_filter r1 fn
        | none => r1
      if r2 = [] then none
      else
        let r3 := match cfg.parser with
          | some pn => (r2.map (fun x => apply_parser_fn now x pn)).filterMap
              (fun o => match o with
                | some v => if v ≠ "" then some v else none
                | none => none)
          | none => r2
        if r3 = [] then none
        else
          match cfg.join with
          | some j => some (.s (String.intercalate j (r3.filter (fun x => x ≠ ""))))
          | none => match r3 with
            | [x] => some (.s x)
            | xs => some (.l xs)

/-- `response.css(sel).getall()` / `response.xpath(sel).getall()`,
dispatched on the language the loop uses. -/
def langQ (resp : PyResponse) (lang sel : String) : Option (List String) :=
  if lang = "css" then resp.css sel else resp.xpath sel

/-- The outcome of one selector attempt inside `extract_field`'s loop:
query (a raise or an empty result advances the loop), then
post-processing, then the truthiness re-check. -/
def selOutcome (now : Int) (resp : PyResponse) (lang sel : String)
    (cfg : FieldConfig) : Option EV :=
  match langQ resp lang sel with
  | none => none
  | some r =>
    if r = [] then none
    else
      match process_result now r cfg with
      | some v => if evTruthy v then some v else none
      | none => none

/-- The per-selector loop of `extract_field`. -/
def trySelectors (now : Int) (resp : PyResponse) (lang : String)
    (cfg : FieldConfig) : List String → Option EV
  | [] => none
  | sel :: rest =>
    match selOutcome now resp lang sel cfg with
    | some v => some v
    | none => trySelectors now resp lang cfg rest

/-- `DataExtractor.extract_field`: pick the priority slot; if its list
is empty switch to the other slot; if that is empty too, return absent;
otherwise try that one slot's selectors in order. -/
def extract_field (now : Int) (resp : PyResponse) (cfg : FieldConfig) : Option EV :=
  let p0 := cfg.priority.getD "css"
  let sels0 := slotGet cfg p0
  let p := if sels0 = [] then (if p0 = "css" then "xpath" else "css") else p0
  let sels := if sels0 = [] then slotGet cfg p else sels0
  if sels = [] then none
  else trySelectors now resp p cfg sels

/-- The selector language `extract_field` settles on: the priority slot
unless its list is empty, in which case the other one. -/
def effLang (cfg : FieldConfig) : String :=
  let p0 := cfg.priority.getD "css"
  if slotGet cfg p0 = [] then (if p0 = "css" then "xpath" else "css") else p0

/-- The selector list `extract_field` settles on. -/
def effSels (cfg : FieldConfig) : List String := slotGet cfg (effLang cfg)

/-- No two adjacent whitespace characters. -/
def noWsRun (l : List Char) : Prop :=
  l.Chain' (fun a b => ¬(pyWs a = true ∧ pyWs b = true))

/-- Canonically spaced text: no leading or trailing whitespace, no
whitespace runs, and every whitespace character is a plain space —
the shape `" ".join(text.split())` produces. -/
def canonSpaced (l : List Char) : Prop :=
  (∀ c, l.head? = some c → pyWs c = false) ∧
  (∀ c, l.getLast? = some c → pyWs c = false) ∧
  noWsRun l ∧ (∀ c ∈ l, pyWs c = true → c = ' ')

end NewsScraper

/-! # Theorems -/

namespace NewsScraper

/-! ## Helper lemmas for the dedup stage -/

/-- Membership in the seen-URL set after one dedup step. -/
theorem mem_seen_urls_step (st : DedupState) (it : DedupItem) (u : String) :
    u ∈ (dedup_process_item st it).1.seen_urls ↔ u ∈ st.seen_urls ∨ u = it.url := by
  unfold dedup_process_item
  split
  · next h =>
    simp only
    constructor
    · exact fun hu => Or.inl hu
    · rintro (hu | rfl)
      · exact hu
      · exact h
  · next h =>
    simp only
    split <;> simp

/-- Membership in the seen-URL set after a whole run. -/
theorem mem_seen_urls_run (items : List DedupItem) (st : DedupState) (u : String) :
    u ∈ (dedupRunState st items).seen_urls ↔
      u ∈ st.seen_urls ∨ u ∈ items.map (·.url) := by
  induction items generalizing st with
  | nil => simp [dedupRunState]
  | cons it t ih =>
    simp only [dedupRunState, ih, mem_seen_urls_step, List.map_cons, List.mem_cons]
    tauto

/-- `dedupOutcomes` distributes over append. -/
theorem dedupOutcomes_append (l1 l2 : List DedupItem) (st : DedupState) :
    dedupOutcomes st (l1 ++ l2) =
      dedupOutcomes st l1 ++ dedupOutcomes (dedupRunState st l1) l2 := by
  induction l1 generalizing st with
  | nil => simp [dedupOutcomes, dedupRunState]
  | cons it t ih => simp [dedupOutcomes, dedupRunState, ih]

/-- `dedupOutcomes` preserves length. -/
theorem dedupOutcomes_length (items : List DedupItem) (st : DedupState) :
    (dedupOutcomes st items).length = items.length := by
  induction items generalizing st with
  | nil => rfl
  | cons it t ih => simp [dedupOutcomes, ih]

/-! ## C6 -/

/-- Normal form of `validation_process_item`: the checks happen in the
order required-fields (title, url, source_name), title length, url
scheme. -/
theorem validation_process_item_eq (it : VItem) :
    validation_process_item it =
      if it.title = "" then .error (.missingField "title")
      else if it.url = "" then .error (.missingField "url")
      else if it.source_name = "" then .error (.missingField "source_name")
      else if it.title.length < 10 then .error .titleTooShort
      else if pyStarts it.url "http://" || pyStarts it.url "https://" then
        .ok (it, it.content ≠ "" && it.content.length < 50)
      else .error .invalidUrl := by
  unfold validation_process_item
  by_cases h1 : it.title = "" <;> by_cases h2 : it.url = "" <;>
    by_cases h3 : it.source_name = "" <;>
    simp [firstMissing, required_fields, vfield, h1, h2, h3]

/-- C6: `ValidationPipeline.process_item` accepts an item iff `title`,
`url` and `source_name` are all present (non-falsy), the title has at
least 10 characters, and the url starts with `http://` or `https://`;
short content only sets the warning flag and never rejects (the
acceptance condition does not mention `content`); rejections carry the
distinguishing reasons (missing field / title too short / invalid url),
and an accepted item passes through unchanged. -/
theorem validation_accepts_iff (it : VItem) :
    ((validation_process_item it).isOk = true ↔
      (it.title ≠ "" ∧ it.url ≠ "" ∧ it.source_name ≠ "" ∧
        10 ≤ it.title.length ∧
        (pyStarts it.url "http://" = true ∨ pyStarts it.url "https://" = true)))
    ∧ (it.title = "" → validation_process_item it = .error (.missingField "title"))
    ∧ (it.title ≠ "" → it.url = "" →
        validation_process_item it = .error (.missingField "url"))
    ∧ (it.title ≠ "" → it.url ≠ "" → it.source_name = "" →
        validation_process_item it = .error (.missingField "source_name"))
    ∧ (it.title ≠ "" → it.url ≠ "" → it.source_name ≠ "" → it.title.length < 10 →
        validation_process_item it = .error .titleTooShort)
    ∧ (it.title ≠ "" → it.url ≠ "" → it.source_name ≠ "" → 10 ≤ it.title.length →
        pyStarts it.url "http://" = false → pyStarts it.url "https://" = false →
        validation_process_item it = .error .invalidUrl)
    ∧ (∀ v, validation_process_item it = .ok v →
        v.1 = it ∧ v.2 = (it.content ≠ "" && it.content.length < 50)) := by
  rw [validation_process_item_eq]
  split_ifs with h1 h2 h3 h4 h5 <;>
    simp_all [Except.isOk, Except.toBool]
  exact fun hf => h5.resolve_left (by simp [hf])

/-- Witness for C6 at concrete items: a 5-character title is rejected as
"title too short", an `ftp://` url as "invalid url", and a full record
is accepted. -/
theorem validation_accepts_iff_witness :
    validation_process_item
        { title := "short", url := "http://x.com", source_name := "X" } =
      .error .titleTooShort
    ∧ validation_process_item
        { title := "a long enough title", url := "ftp://x.com", source_name := "X" } =
      .error .invalidUrl
    ∧ (validation_process_item
        { title := "a long enough title", url := "https://x.com", source_name := "X" }).isOk
      = true :=
  ⟨(validation_accepts_iff _).2.2.2.2.1 (by decide) (by decide) (by decide) (by decide),
   (validation_accepts_iff _).2.2.2.2.2.1 (by decide) (by decide) (by decide) (by decide)
     (by decide) (by decide),
   ((validation_accepts_iff _).1).2
     ⟨by decide, by decide, by decide, by decide, Or.inr (by decide)⟩⟩

/-! ## C5 -/

/-- C5 counterexample: the first record submitted with url `http://u`
(the second record of the run — the first record has a different url) is
*not* accepted: it is rejected as a duplicate id, refuting "for every
url U, the first record submitted with url U is accepted". -/
theorem dedup_first_url_not_always_accepted :
    dedupOutcomes dedupInit [⟨"http://a", "X"⟩, ⟨"http://u", "X"⟩] =
      [none, some DropReason.duplicateId]
    ∧ ("http://a" : String) ≠ "http://u" := by decide

/-- C5 (amended): for every url U, the first record submitted with url U
is never rejected as "duplicate url" and always inserts U into the
seen-URL set; it is accepted iff its `news_id` is also fresh, and
otherwise it is rejected as "duplicate id" (with U still inserted);
every later record with url U is rejected as "duplicate url" without
mutating the seen sets; and the duplicate counter increments exactly
once per rejection (of either kind) and never on acceptance. -/
theorem dedup_url_dedup_amended :
    (∀ st it, it.url ∈ st.seen_urls →
      dedup_process_item st it =
        ({ st with duplicate_count := st.duplicate_count + 1 }, some .duplicateUrl))
    ∧ (∀ st it, it.url ∉ st.seen_urls →
        (dedup_process_item st it).2 ≠ some .duplicateUrl ∧
        it.url ∈ (dedup_process_item st it).1.seen_urls)
    ∧ (∀ st it, it.url ∉ st.seen_urls → it.news_id ∉ st.seen_ids →
        dedup_process_item st it =
          ({ st with seen_urls := st.seen_urls ++ [it.url],
                     seen_ids := st.seen_ids ++ [it.news_id] }, none))
    ∧ (∀ st it,
        ((dedup_process_item st it).2.isSome = true →
          (dedup_process_item st it).1.duplicate_count = st.duplicate_count + 1)
        ∧ ((dedup_process_item st it).2 = none →
          (dedup_process_item st it).1.duplicate_count = st.duplicate_count))
    ∧ (∀ (pre post : List DedupItem) (it : DedupItem),
        ((∀ p ∈ pre, p.url ≠ it.url) →
          (dedupOutcomes dedupInit (pre ++ it :: post)).getD pre.length none ≠
            some .duplicateUrl)
        ∧ (it.url ∈ pre.map (·.url) →
          (dedupOutcomes dedupInit (pre ++ it :: post)).getD pre.length none =
            some .duplicateUrl))
    ∧ (∀ st it, it.url ∉ st.seen_urls →
        (((dedup_process_item st it).2 = none) ↔ it.news_id ∉ st.seen_ids)
        ∧ (it.news_id ∈ st.seen_ids →
            dedup_process_item st it =
              ({ st with seen_urls := st.seen_urls ++ [it.url],
                         duplicate_count := st.duplicate_count + 1 },
                some .duplicateId))) := by
  refine ⟨?_, ?_, ?_, ?_, ?_, ?_⟩
  · intro st it h
    simp [dedup_process_item, h]
  · intro st it h
    constructor
    · simp only [dedup_process_item, h, if_neg, ite_false, reduceIte]
      split <;> simp
    · rw [mem_seen_urls_step]
      exact Or.inr rfl
  · intro st it h h2
    simp [dedup_process_item, h, h2]
  · intro st it
    unfold dedup_process_item
    split
    · simp
    · simp only
      split <;> simp
  · intro pre post it
    have hlen : (dedupOutcomes dedupInit pre).length = pre.length :=
      dedupOutcomes_length pre dedupInit
    have hsplit : dedupOutcomes dedupInit (pre ++ it :: post) =
        dedupOutcomes dedupInit pre ++
          ((dedup_process_item (dedupRunState dedupInit pre) it).2 ::
            dedupOutcomes (dedup_process_item (dedupRunState dedupInit pre) it).1 post) := by
      rw [dedupOutcomes_append]
      rfl
    have hget : (dedupOutcomes dedupInit (pre ++ it :: post)).getD pre.length none =
        (dedup_process_item (dedupRunState dedupInit pre) it).2 := by
      rw [hsplit, List.getD_eq_getElem?_getD, List.getElem?_append_right (by omega),
        hlen, Nat.sub_self]
      simp
    have hmem : it.url ∈ (dedupRunState dedupInit pre).seen_urls ↔
        it.url ∈ pre.map (·.url) := by
      rw [mem_seen_urls_run]
      simp [dedupInit]
    constructor
    · intro hfresh
      rw [hget]
      have hnot : it.url ∉ (dedupRunState dedupInit pre).seen_urls := by
        rw [hmem]
        simp only [List.mem_map]
        rintro ⟨p, hp, hpu⟩
        exact hfresh p hp hpu
      simp only [dedup_process_item, hnot, if_neg, ite_false, reduceIte]
      split <;> simp
    · intro hseen
      rw [hget]
      have hin : it.url ∈ (dedupRunState dedupInit pre).seen_urls := hmem.mpr hseen
      simp [dedup_process_item, hin]
  · intro st it h
    constructor
    · by_cases hid : it.news_id ∈ st.seen_ids
      · simp [dedup_process_item, h, hid]
      · simp [dedup_process_item, h, hid]
    · intro hid
      simp [dedup_process_item, h, hid]

/-- Witness for C5's amended theorem at concrete inputs. -/
theorem dedup_url_dedup_amended_witness :
    (("http://u" : String) ∉ (⟨[], ["X"], 0⟩ : DedupState).seen_urls
      ∧ (dedup_process_item ⟨[], ["X"], 0⟩ ⟨"http://u", "Y"⟩).2 ≠ some .duplicateUrl
      ∧ "http://u" ∈ (dedup_process_item ⟨[], ["X"], 0⟩ ⟨"http://u", "Y"⟩).1.seen_urls)
    ∧ (("http://u" : String) ∈ ([⟨"http://u", "X"⟩] : List DedupItem).map (·.url)
      ∧ (dedupOutcomes dedupInit
           ([⟨"http://u", "X"⟩] ++ ⟨"http://u", "Y"⟩ :: [])).getD 1 none =
         some .duplicateUrl)
    ∧ (("X" : String) ∈ (⟨[], ["X"], 0⟩ : DedupState).seen_ids
      ∧ dedup_process_item ⟨[], ["X"], 0⟩ ⟨"http://u", "X"⟩ =
          (⟨["http://u"], ["X"], 1⟩, some .duplicateId)) :=
  ⟨⟨by decide, (dedup_url_dedup_amended.2.1 ⟨[], ["X"], 0⟩ ⟨"http://u", "Y"⟩ (by decide)).1,
     (dedup_url_dedup_amended.2.1 ⟨[], ["X"], 0⟩ ⟨"http://u", "Y"⟩ (by decide)).2⟩,
   ⟨by decide,
     (dedup_url_dedup_amended.2.2.2.2.1 [⟨"http://u", "X"⟩] [] ⟨"http://u", "Y"⟩).2
       (by decide)⟩,
   ⟨by decide,
     (dedup_url_dedup_amended.2.2.2.2.2 ⟨[], ["X"], 0⟩ ⟨"http://u", "X"⟩ (by decide)).2
       (by decide)⟩⟩

/-! ## C8 -/

/-- C8: a record with a fresh url V but an already-seen `news_id` is
rejected as "duplicate id", yet V has been inserted into the seen-URL
set, so any later record with url V is rejected as "duplicate url"
(the seen-URL set only ever grows). -/
theorem dedup_id_rejection_inserts_url :
    (∀ st it, it.url ∉ st.seen_urls → it.news_id ∈ st.seen_ids →
      (dedup_process_item st it).2 = some .duplicateId ∧
      it.url ∈ (dedup_process_item st it).1.seen_urls ∧
      (∀ it2 : DedupItem, it2.url = it.url →
        (dedup_process_item (dedup_process_item st it).1 it2).2 =
          some .duplicateUrl))
    ∧ (∀ st it u, u ∈ st.seen_urls → u ∈ (dedup_process_item st it).1.seen_urls) := by
  constructor
  · intro st it hu hid
    have hstep : dedup_process_item st it =
        ({ st with seen_urls := st.seen_urls ++ [it.url],
                   duplicate_count := st.duplicate_count + 1 }, some .duplicateId) := by
      simp [dedup_process_item, hu, hid]
    refine ⟨by rw [hstep], ?_, ?_⟩
    · rw [hstep]
      simp
    · intro it2 h2
      have hm : it2.url ∈ (dedup_process_item st it).1.seen_urls := by
        rw [mem_seen_urls_step]
        exact Or.inr h2
      generalize hS : (dedup_process_item st it).1 = S at hm ⊢
      simp [dedup_process_item, hm]
  · intro st it u hu
    rw [mem_seen_urls_step]
    exact Or.inl hu

/-- Witness for C8 at a concrete state: url `http://v` is fresh, id `X`
is stale; the record is rejected as duplicate id and later `http://v`
records are rejected as duplicate url. -/
theorem dedup_id_rejection_inserts_url_witness :
    (dedup_process_item ⟨[], ["X"], 0⟩ ⟨"http://v", "X"⟩).2 = some .duplicateId
    ∧ "http://v" ∈ (dedup_process_item ⟨[], ["X"], 0⟩ ⟨"http://v", "X"⟩).1.seen_urls
    ∧ (dedup_process_item (dedup_process_item ⟨[], ["X"], 0⟩ ⟨"http://v", "X"⟩).1
        ⟨"http://v", "Y"⟩).2 = some .duplicateUrl :=
  ⟨(dedup_id_rejection_inserts_url.1 ⟨[], ["X"], 0⟩ ⟨"http://v", "X"⟩
      (by decide) (by decide)).1,
   (dedup_id_rejection_inserts_url.1 ⟨[], ["X"], 0⟩ ⟨"http://v", "X"⟩
      (by decide) (by decide)).2.1,
   (dedup_id_rejection_inserts_url.1 ⟨[], ["X"], 0⟩ ⟨"http://v", "X"⟩
      (by decide) (by decide)).2.2 ⟨"http://v", "Y"⟩ rfl⟩

/-! ## C3 -/

/-- C3 counterexample: with the configuration resource missing (or
malformed), `_load_configs` returns normally with an empty registry —
no ConfigError is raised, nothing propagates to the caller. -/
theorem load_configs_swallows_errors :
    load_configs .missing = .ok ⟨[], []⟩
    ∧ load_configs (.parseError "Expecting value: line 1 column 1 (char 0)") =
        .ok ⟨[], []⟩ :=
  ⟨rfl, rfl⟩

/-- C3 (amended): loading never fails: a missing or unparseable
resource is logged and swallowed, silently yielding an empty registry;
a well-formed resource loads exactly the entries not explicitly
disabled, and the extractor map is keyed by the loaded configs. -/
theorem load_configs_amended :
    (∀ r, (load_configs r).isOk = true)
    ∧ (∀ r, (r = .missing ∨ ∃ m, r = .parseError m) →
        load_configs r = .ok ⟨[], []⟩)
    ∧ (∀ entries reg, load_configs (.parsed entries) = .ok reg →
        (∀ e : String × SrcConfig,
          e ∈ reg.configs ↔ e ∈ entries ∧ e.2.enabled ≠ some false)
        ∧ reg.extractors = reg.configs.map (·.1)) := by
  refine ⟨?_, ?_, ?_⟩
  · intro r
    cases r <;> rfl
  · rintro r (rfl | ⟨m, rfl⟩) <;> rfl
  · intro entries reg hreg
    simp only [load_configs, Except.ok.injEq] at hreg
    subst hreg
    refine ⟨?_, rfl⟩
    intro e
    simp only [List.mem_filter]
    constructor
    · rintro ⟨he, hen⟩
      refine ⟨he, ?_⟩
      cases h : e.2.enabled with
      | none => simp
      | some b =>
        rw [h] at hen
        simp only [Option.getD_some] at hen
        simp [hen]
    · rintro ⟨he, hen⟩
      refine ⟨he, ?_⟩
      cases h : e.2.enabled with
      | none => simp
      | some b =>
        rw [h] at hen
        cases b
        · exact absurd rfl hen
        · simp

/-- Witness for C3's amended theorem at concrete resources. -/
theorem load_configs_amended_witness :
    load_configs .missing = .ok ⟨[], []⟩
    ∧ (load_configs (.parsed [("cnn", ⟨"CNN", none⟩), ("bbc", ⟨"BBC", some false⟩)])).isOk
        = true :=
  ⟨load_configs_amended.2.1 .missing (Or.inl rfl),
   load_configs_amended.1 _⟩

/-! ## Helper lemmas for the field extractor -/

/-- `extract_field` in terms of the settled language and selector list. -/
theorem extract_field_eq (now : Int) (resp : PyResponse) (cfg : FieldConfig) :
    extract_field now resp cfg =
      if effSels cfg = [] then none
      else trySelectors now resp (effLang cfg) cfg (effSels cfg) := by
  unfold extract_field effSels effLang
  by_cases h : slotGet cfg (cfg.priority.getD "css") = [] <;> simp [h]

/-- A selector attempt only looks at the settled language's query. -/
theorem selOutcome_congr (now : Int) (resp1 resp2 : PyResponse) (lang sel : String)
    (cfg : FieldConfig) (h : langQ resp1 lang sel = langQ resp2 lang sel) :
    selOutcome now resp1 lang sel cfg = selOutcome now resp2 lang sel cfg := by
  unfold selOutcome
  rw [h]

/-! ## C1 -/

/-- C1 counterexample: the priority (css) slot is non-empty but its one
selector finds nothing; the xpath slot's selector would survive
post-processing (third conjunct), yet `extract_field` returns absent —
the other slot is never tried. -/
theorem extract_field_no_cross_slot_fallback :
    extract_field 0
        ⟨fun _ => some [],
         fun sel => if sel = "//h1/text()" then some ["Fallback Headline"] else some []⟩
        { css := ["h1.title::text"], xpath := ["//h1/text()"], priority := some "css" }
      = none
    ∧ selOutcome 0
        ⟨fun _ => some [],
         fun sel => if sel = "//h1/text()" then some ["Fallback Headline"] else some []⟩
        "xpath" "//h1/text()"
        { css := ["h1.title::text"], xpath := ["//h1/text()"], priority := some "css" }
      = some (.s "Fallback Headline") := by
  exact ⟨rfl, rfl⟩

/-- C1 (amended): `extract_field` settles on a single slot — the
priority slot when its selector list is non-empty, otherwise the other
slot — and only that slot's selectors are ever consulted: (i) with both
slots empty the result is absent; (ii) the result is unchanged under
arbitrary modification of the other language's query results; (iii)
within the settled slot, selectors are tried in listed order and the
first one that survives post-processing wins. -/
theorem extract_field_single_slot :
    (∀ (now : Int) (resp : PyResponse) (cfg : FieldConfig),
      cfg.css = [] → cfg.xpath = [] → extract_field now resp cfg = none)
    ∧ (∀ (now : Int) (resp1 resp2 : PyResponse) (cfg : FieldConfig),
        (∀ sel, langQ resp1 (effLang cfg) sel = langQ resp2 (effLang cfg) sel) →
        extract_field now resp1 cfg = extract_field now resp2 cfg)
    ∧ (∀ (now : Int) (resp : PyResponse) (cfg : FieldConfig)
        (pre : List String) (sel : String) (post : List String) (v : EV),
        effSels cfg = pre ++ sel :: post →
        (∀ t ∈ pre, selOutcome now resp (effLang cfg) t cfg = none) →
        selOutcome now resp (effLang cfg) sel cfg = some v →
        extract_field now resp cfg = some v) := by
  refine ⟨?_, ?_, ?_⟩
  · intro now resp cfg h1 h2
    rw [extract_field_eq]
    have : effSels cfg = [] := by
      unfold effSels slotGet
      split <;> simp [h1, h2]
    simp [this]
  · intro now resp1 resp2 cfg h
    rw [extract_field_eq, extract_field_eq]
    by_cases he : effSels cfg = []
    · simp [he]
    · simp only [he, if_neg, ite_false, reduceIte]
      generalize effSels cfg = sels
      induction sels with
      | nil => rfl
      | cons a t ih =>
        unfold trySelectors
        rw [selOutcome_congr now resp1 resp2 (effLang cfg) a cfg (h a), ih]
  · intro now resp cfg pre sel post v hdec hpre hsel
    rw [extract_field_eq]
    have hne : effSels cfg ≠ [] := by
      rw [hdec]
      simp
    simp only [hne, if_neg, ite_false, reduceIte]
    rw [hdec]
    clear hdec hne
    induction pre with
    | nil => simp [trySelectors, hsel]
    | cons a t ih =>
      have ha := hpre a (by simp)
      simp only [List.cons_append]
      unfold trySelectors
      rw [ha]
      exact ih (fun x hx => hpre x (by simp [hx]))

/-- Witness for C1's amended theorem: a response whose css query raises
is irrelevant once the xpath slot is settled on, and the second xpath
selector wins after the first misses. -/
theorem extract_field_single_slot_witness :
    (∀ sel, langQ ⟨fun _ => none, fun sel => if sel = "b" then some ["hit"] else some []⟩
        (effLang { xpath := ["a", "b"], priority := some "css" }) sel =
      langQ ⟨fun _ => some ["css noise"], fun sel => if sel = "b" then some ["hit"] else some []⟩
        (effLang { xpath := ["a", "b"], priority := some "css" }) sel)
    ∧ extract_field 0 ⟨fun _ => none, fun sel => if sel = "b" then some ["hit"] else some []⟩
        { xpath := ["a", "b"], priority := some "css" } =
      extract_field 0 ⟨fun _ => some ["css noise"], fun sel => if sel = "b" then some ["hit"] else some []⟩
        { xpath := ["a", "b"], priority := some "css" }
    ∧ extract_field 0 ⟨fun _ => none, fun sel => if sel = "b" then some ["hit"] else some []⟩
        { xpath := ["a", "b"], priority := some "css" } = some (.s "hit") :=
  ⟨fun sel => rfl,
   extract_field_single_slot.2.1 0 _ _ _ (fun sel => rfl),
   extract_field_single_slot.2.2 0 _ _ ["a"] "b" [] (.s "hit") rfl
     (by intro t ht
         simp only [List.mem_singleton] at ht
         subst ht
         rfl)
     rfl⟩

/-! ## C2 -/

/-- C2 (the code at the failing input): DateNormalizer cannot parse
`"not a date"` with the `auto` parser (it returns absent), yet
`_apply_parser` returns the raw input string unchanged, and
`_process_result` therefore keeps the element instead of dropping it. -/
theorem apply_parser_keeps_unparseable_raw :
    parse_date 0 "not a date" "auto" = none
    ∧ apply_parser_fn 0 "not a date" "auto" = some "not a date"
    ∧ process_result 0 ["not a date"] { css := ["sel"], parser := some "auto" } =
        some (.s "not a date") := by
  refine ⟨?_, ?_, ?_⟩ <;> rfl

/-! ## C7 -/

/-- The scan loop steps to the checked subtraction as soon as the first
matching table entry is a numeric one and the text contains an
integer. -/
theorem relLoop_of_firstMatch (now : Int) (sData lowData : List Char)
    (table : List (String × RelValue)) (u : RelUnit) (n : Nat)
    (h1 : (table.find? (fun pv => hasSubL pv.1.data lowData)).map (·.2) =
      some (.unit u))
    (h2 : firstIntegerL sData = some n) :
    relLoop now sData lowData table =
      (match nowMinus now (unitSeconds u n) with
       | .ok d => .ok (some d)
       | .error e => .error e) := by
  induction table with
  | nil => simp at h1
  | cons pv rest ih =>
    obtain ⟨pat, v⟩ := pv
    by_cases hp : hasSubL pat.data lowData = true
    · simp only [List.find?, hp, cond_true] at h1
      have hv : v = RelValue.unit u := by simpa using h1
      unfold relLoop
      rw [if_pos hp, hv, h2]
    · have hp2 := hp
      rw [Bool.not_eq_true] at hp2
      simp only [List.find?, hp2, cond_false] at h1
      unfold relLoop
      rw [if_neg hp]
      exact ih h1

/-- C7 counterexample: (a) a text containing both "just now" and a
numeric phrase returns the current time (the dict-order first match
wins), not now − firstInteger × unit; (b) a numeric phrase whose delta
leaves the `datetime` range makes the relative strategy raise
`OverflowError` (which propagates out of `parse`) instead of returning
a value. -/
theorem parse_relative_dict_order_and_overflow_cex :
    DateParser_parse 1000000000000 "just now 5 minutes ago" "relative" =
      .ok (some ⟨1000000000000, none⟩)
    ∧ (1000000000000 : Int) - 5 * unitSeconds RelUnit.minutes 1 * 1000000 ≠
        1000000000000
    ∧ DateParser_parse 1000000000000 "3000 years ago" "relative" = .error () := by
  refine ⟨rfl, by decide, rfl⟩

/-- C7 (amended): whenever the first `RELATIVE_PATTERNS` entry matching
the (lowercased, stripped) text is a numeric pattern family
(`N minutes/hours/days/weeks/months/years ago`) and the text contains
an integer, the relative strategy returns the current time minus the
first integer times the unit — minutes 60 s, hours 3600 s, days
86400 s, weeks 604800 s, months 30 days, years 365 days — provided the
`timedelta` stays within its day limit and the result within the
`datetime` range; otherwise the strategy raises `OverflowError`, which
propagates out of `parse`. -/
theorem parse_relative_numeric (now : Int) (text : String) (u : RelUnit) (n : Nat)
    (h1 : firstRelMatch (pyLower (pyStrip text)).data = some (.unit u))
    (h2 : firstIntegerL (pyStrip text).data = some n) :
    (unitSeconds u n / 86400 ≤ 999999999 ∧
        0 ≤ now - (unitSeconds u n : Int) * 1000000 ∧
        now - (unitSeconds u n : Int) * 1000000 ≤ dtMaxUsec →
      DateParser_parse now text "relative" =
        .ok (some ⟨now - (unitSeconds u n : Int) * 1000000, none⟩)) ∧
    (¬(unitSeconds u n / 86400 ≤ 999999999 ∧
        0 ≤ now - (unitSeconds u n : Int) * 1000000 ∧
        now - (unitSeconds u n : Int) * 1000000 ≤ dtMaxUsec) →
      DateParser_parse now text "relative" = .error ()) := by
  have hne : text ≠ "" := by
    intro h
    rw [h] at h1
    have h0 : firstRelMatch (pyLower (pyStrip "")).data = none := rfl
    rw [h0] at h1
    cases h1
  have key : DateParser_parse now text "relative" =
      (match nowMinus now (unitSeconds u n) with
       | .ok d => .ok (some d)
       | .error e => .error e) := by
    unfold DateParser_parse
    rw [if_neg hne]
    simp only [reduceIte, String.reduceEq]
    unfold parse_relative_time
    exact relLoop_of_firstMatch now _ _ RELATIVE_PATTERNS u n h1 h2
  constructor
  · intro hcond
    rw [key, show nowMinus now (unitSeconds u n) =
      .ok ⟨now - (unitSeconds u n : Int) * 1000000, none⟩ from by
        unfold nowMinus
        rw [if_pos hcond]]
  · intro hcond
    rw [key, show nowMinus now (unitSeconds u n) = .error () from by
      unfold nowMinus
      rw [if_neg hcond]]

/-- Witness for C7: `parse("5 minutes ago", "relative")` at time T
(here T = 10^12 µs, in range) returns exactly T − 5 minutes. -/
theorem parse_relative_numeric_witness :
    DateParser_parse 1000000000000 "5 minutes ago" "relative" =
      .ok (some ⟨999700000000, none⟩) := by
  have h := (parse_relative_numeric 1000000000000 "5 minutes ago"
    RelUnit.minutes 5 rfl rfl).1 (by decide)
  norm_num [unitSeconds] at h
  exact h

/-! ## Helper lemmas for the cleaning stage: `strip` -/

/-- `dropWhile` is a no-op when the head does not satisfy the predicate. -/
theorem dropWhile_eq_self_of_head (p : Char → Bool) (l : List Char)
    (h : ∀ c, l.head? = some c → p c = false) : l.dropWhile p = l := by
  cases l with
  | nil => rfl
  | cons a t =>
    have := h a rfl
    simp [List.dropWhile_cons, this]

/-- The head surviving `dropWhile` does not satisfy the predicate. -/
theorem head_dropWhile_not (p : Char → Bool) (l : List Char) (c : Char)
    (h : (l.dropWhile p).head? = some c) : p c = false := by
  induction l with
  | nil => simp at h
  | cons a t ih =>
    rw [List.dropWhile_cons] at h
    split at h
    · exact ih h
    · next hpa =>
      simp only [List.head?_cons, Option.some.injEq] at h
      subst h
      simpa using hpa

/-- `stripL` is a prefix of `dropWhile pyWs`. -/
theorem stripL_isPrefix (l : List Char) : stripL l <+: l.dropWhile pyWs := by
  unfold stripL
  have h := List.dropWhile_suffix (l := (l.dropWhile pyWs).reverse) pyWs
  obtain ⟨t, ht⟩ := h
  exact ⟨t.reverse, by rw [← List.reverse_append, ht, List.reverse_reverse]⟩

/-- `stripL` yields an infix of the original list. -/
theorem stripL_isInfix (l : List Char) : stripL l <:+: l :=
  (stripL_isPrefix l).isInfix.trans (List.dropWhile_suffix pyWs).isInfix

/-- The head of a stripped list is not whitespace. -/
theorem stripL_head (l : List Char) (c : Char) (h : (stripL l).head? = some c) :
    pyWs c = false := by
  obtain ⟨t, ht⟩ := stripL_isPrefix l
  have hne : stripL l ≠ [] := by
    intro h0
    rw [h0] at h
    simp at h
  have : (l.dropWhile pyWs).head? = some c := by
    rw [← ht, List.head?_append_of_ne_nil _ hne, h]
  exact head_dropWhile_not pyWs l c this

/-- The last character of a stripped list is not whitespace. -/
theorem stripL_last (l : List Char) (c : Char) (h : (stripL l).getLast? = some c) :
    pyWs c = false := by
  rw [List.getLast?_eq_head?_reverse] at h
  unfold stripL at h
  rw [List.reverse_reverse] at h
  exact head_dropWhile_not pyWs (l.dropWhile pyWs).reverse c h

/-- `strip` is a no-op on a list with no whitespace at either end. -/
theorem stripL_eq_self (l : List Char)
    (h1 : ∀ c, l.head? = some c → pyWs c = false)
    (h2 : ∀ c, l.getLast? = some c → pyWs c = false) : stripL l = l := by
  unfold stripL
  rw [dropWhile_eq_self_of_head pyWs l h1]
  rw [dropWhile_eq_self_of_head pyWs l.reverse
    (fun c hc => h2 c (by rwa [List.getLast?_eq_head?_reverse]))]
  exact List.reverse_reverse l

/-- `strip` is idempotent. -/
theorem stripL_idem (l : List Char) : stripL (stripL l) = stripL l :=
  stripL_eq_self (stripL l) (stripL_head l) (stripL_last l)

/-- `strip(chars)` is a no-op when no listed character occurs at all. -/
theorem stripCharsL_eq_self (cs l : List Char)
    (h : ∀ c ∈ l, cs.contains c = false) : stripCharsL cs l = l := by
  unfold stripCharsL
  rw [dropWhile_eq_self_of_head _ l
    (fun c hc => h c (by cases l with | nil => simp at hc | cons a t =>
      simp only [List.head?_cons, Option.some.injEq] at hc
      subst hc
      simp))]
  rw [dropWhile_eq_self_of_head _ l.reverse
    (fun c hc => h c (by
      have := List.mem_of_mem_head? hc
      simpa using this))]
  exact List.reverse_reverse l

/-! ## Helper lemmas for the cleaning stage: `split` and `join` -/

/-- A leading whitespace character is skipped by `split()`. -/
theorem splitWsL_ws_cons (c : Char) (t : List Char) (h : pyWs c = true) :
    splitWsL (c :: t) = splitWsL t := by
  show splitWsAux (c :: t) [] = splitWsL t
  rw [show splitWsAux (c :: t) [] =
    (if pyWs c = true then
      (if ([] : List Char).isEmpty then splitWsAux t [] else [].reverse :: splitWsAux t [])
     else splitWsAux t [c]) from rfl]
  simp [h, splitWsL]

/-- The accumulator-style splitter in terms of `takeWhile`/`dropWhile`. -/
theorem splitWsAux_acc (l : List Char) : ∀ acc : List Char, acc ≠ [] →
    splitWsAux l acc =
      (acc.reverse ++ l.takeWhile (fun c => !pyWs c)) ::
        splitWsL (l.dropWhile (fun c => !pyWs c)) := by
  induction l with
  | nil =>
    intro acc h
    rw [show splitWsAux [] acc = (if acc.isEmpty then [] else [acc.reverse]) from rfl]
    rw [if_neg (by simpa using h)]
    simp [splitWsL, splitWsAux]
  | cons c t ih =>
    intro acc h
    rw [show splitWsAux (c :: t) acc =
      (if pyWs c = true then
        (if acc.isEmpty then splitWsAux t [] else acc.reverse :: splitWsAux t [])
       else splitWsAux t (c :: acc)) from rfl]
    by_cases hc : pyWs c = true
    · rw [if_pos hc, if_neg (by simpa using h)]
      rw [List.takeWhile_cons_of_neg (by simp [hc]),
        List.dropWhile_cons_of_neg (by simp [hc])]
      rw [splitWsL_ws_cons c t hc]
      simp [splitWsL]
    · rw [if_neg hc]
      rw [ih (c :: acc) (by simp)]
      rw [List.takeWhile_cons_of_pos (by simp [hc]),
        List.dropWhile_cons_of_pos (by simp [hc])]
      simp

/-- `split()` on a list with a non-whitespace head: first group and
recursion on the rest. -/
theorem splitWsL_cons_nonws (c : Char) (t : List Char) (h : pyWs c = false) :
    splitWsL (c :: t) =
      (c :: t.takeWhile (fun x => !pyWs x)) ::
        splitWsL (t.dropWhile (fun x => !pyWs x)) := by
  show splitWsAux (c :: t) [] = _
  rw [show splitWsAux (c :: t) [] =
    (if pyWs c = true then
      (if ([] : List Char).isEmpty then splitWsAux t [] else [].reverse :: splitWsAux t [])
     else splitWsAux t [c]) from rfl]
  rw [if_neg (by simp [h])]
  rw [splitWsAux_acc t [c] (by simp)]
  simp

/-- `split()` of a nonempty list with non-whitespace head is nonempty. -/
theorem splitWsL_ne_nil (c : Char) (t : List Char) (h : pyWs c = false) :
    splitWsL (c :: t) ≠ [] := by
  rw [splitWsL_cons_nonws c t h]
  simp

/-- Every group produced by `split()` is nonempty and whitespace-free. -/
theorem splitWsL_groups : ∀ (n : Nat) (l : List Char), l.length ≤ n →
    ∀ g ∈ splitWsL l, g ≠ [] ∧ ∀ c ∈ g, pyWs c = false := by
  intro n
  induction n with
  | zero =>
    intro l hl g hg
    rw [List.length_eq_zero.mp (Nat.le_zero.mp hl)] at hg
    simp [splitWsL, splitWsAux] at hg
  | succ n ih =>
    intro l hl g hg
    cases l with
    | nil => simp [splitWsL, splitWsAux] at hg
    | cons c t =>
      by_cases hc : pyWs c = true
      · rw [splitWsL_ws_cons c t hc] at hg
        exact ih t (by simpa using Nat.le_of_succ_le_succ hl) g hg
      · rw [splitWsL_cons_nonws c t (by simpa using hc)] at hg
        rcases List.mem_cons.mp hg with hg | hg
        · subst hg
          refine ⟨by simp, ?_⟩
          intro x hx
          rcases List.mem_cons.mp hx with hx | hx
          · subst hx
            simpa using hc
          · have hp := List.mem_takeWhile_imp hx
            simpa using hp
        · have hlen : (t.dropWhile (fun x => !pyWs x)).length ≤ n := by
            have h1 := (List.dropWhile_sublist (l := t) (fun x => !pyWs x)).length_le
            have h2 : t.length ≤ n := by simpa using Nat.le_of_succ_le_succ hl
            omega
          exact ih _ hlen g hg

/-- `split()` is a left inverse of joining nonempty whitespace-free
groups with single spaces. -/
theorem splitWsL_joinSepL (gs : List (List Char))
    (h : ∀ g ∈ gs, g ≠ [] ∧ ∀ c ∈ g, pyWs c = false) :
    splitWsL (joinSepL [' '] gs) = gs := by
  induction gs with
  | nil => rfl
  | cons g rest ih =>
    obtain ⟨hg, hgc⟩ := h g (by simp)
    obtain ⟨c, t', rfl⟩ := List.exists_cons_of_ne_nil hg
    have hcw : pyWs c = false := hgc c (by simp)
    have htw : ∀ x ∈ t', pyWs x = false := fun x hx => hgc x (by simp [hx])
    cases rest with
    | nil =>
      show splitWsL (c :: t') = [c :: t']
      rw [splitWsL_cons_nonws c t' hcw]
      rw [List.takeWhile_eq_self_iff.mpr (by intro x hx; simp [htw x hx])]
      rw [List.dropWhile_eq_nil_iff.mpr (by intro x hx; simp [htw x hx])]
      rfl
    | cons g2 rest2 =>
      have hj : joinSepL [' '] ((c :: t') :: g2 :: rest2) =
          c :: (t' ++ ' ' :: joinSepL [' '] (g2 :: rest2)) := by
        show (c :: t') ++ [' '] ++ joinSepL [' '] (g2 :: rest2) = _
        simp
      rw [hj, splitWsL_cons_nonws c _ hcw]
      rw [List.takeWhile_append_of_pos (by intro a ha; simp [htw a ha]),
        List.dropWhile_append_of_pos (by intro a ha; simp [htw a ha])]
      rw [List.takeWhile_cons_of_neg (by decide), List.dropWhile_cons_of_neg (by decide)]
      rw [splitWsL_ws_cons ' ' _ (by decide)]
      rw [ih (fun g hg2 => h g (by simp [hg2]))]
      simp

/-- Top-level wrapper for the group facts. -/
theorem splitWsL_groups_of (l : List Char) :
    ∀ g ∈ splitWsL l, g ≠ [] ∧ ∀ c ∈ g, pyWs c = false :=
  splitWsL_groups l.length l (Nat.le_refl _)

/-- On canonically spaced text, joining the split groups with single
spaces is the identity. -/
theorem joinSepL_splitWsL_aux : ∀ (n : Nat) (l : List Char), l.length ≤ n →
    canonSpaced l → joinSepL [' '] (splitWsL l) = l := by
  intro n
  induction n with
  | zero =>
    intro l hl _
    rw [List.length_eq_zero.mp (Nat.le_zero.mp hl)]
    rfl
  | succ n ih =>
    intro l hl hcan
    obtain ⟨hhead, hlast, hchain, hsp⟩ := hcan
    cases l with
    | nil => rfl
    | cons c t =>
      have hcw : pyWs c = false := hhead c rfl
      rw [splitWsL_cons_nonws c t hcw]
      cases hdr : t.dropWhile (fun x => !pyWs x) with
      | nil =>
        have htk : t.takeWhile (fun x => !pyWs x) = t :=
          List.takeWhile_eq_self_iff.mpr (List.dropWhile_eq_nil_iff.mp hdr)
        rw [htk]
        rfl
      | cons d dr2 =>
        have hdw : pyWs d = true := by
          have := head_dropWhile_not (fun x => !pyWs x) t d (by rw [hdr]; rfl)
          simpa using this
        have hdmem : d ∈ t :=
          (List.dropWhile_sublist (l := t) _).subset (by rw [hdr]; simp)
        have hdsp : d = ' ' := hsp d (List.mem_cons_of_mem c hdmem) hdw
        have hdecomp : t.takeWhile (fun x => !pyWs x) ++ d :: dr2 = t := by
          conv_rhs => rw [← List.takeWhile_append_dropWhile
            (p := fun x => !pyWs x) (l := t)]
          rw [hdr]
        have hdrne : dr2 ≠ [] := by
          intro h0
          subst h0
          have : (c :: t).getLast? = some d := by
            rw [← hdecomp, show c :: (t.takeWhile (fun x => !pyWs x) ++ [d]) =
              (c :: t.takeWhile (fun x => !pyWs x)) ++ [d] from rfl]
            exact List.getLast?_concat _
          have := hlast d this
          rw [this] at hdw
          cases hdw
        obtain ⟨e, dr3, rfl⟩ := List.exists_cons_of_ne_nil hdrne
        have hsufx : (d :: e :: dr3) <:+ c :: t :=
          ⟨c :: t.takeWhile (fun x => !pyWs x), by
            rw [show (c :: t.takeWhile (fun x => !pyWs x)) ++ d :: e :: dr3 =
              c :: (t.takeWhile (fun x => !pyWs x) ++ d :: e :: dr3) from rfl, hdecomp]⟩
        have hchain2 := hchain.suffix hsufx
        have hew : pyWs e = false := by
          have hre := (List.chain'_cons.mp hchain2).1
          by_cases h0 : pyWs e = true
          · exact absurd ⟨hdw, h0⟩ hre
          · simpa using h0
        have hcan2 : canonSpaced (e :: dr3) := by
          refine ⟨?_, ?_, ?_, ?_⟩
          · intro x hx
            simp only [List.head?_cons, Option.some.injEq] at hx
            subst hx
            exact hew
          · intro x hx
            refine hlast x ?_
            have hsplit2 : (c :: t.takeWhile (fun x => !pyWs x) ++ [d]) ++ e :: dr3 =
                c :: t := by
              rw [show (c :: t.takeWhile (fun x => !pyWs x) ++ [d]) ++ e :: dr3 =
                c :: (t.takeWhile (fun x => !pyWs x) ++ d :: e :: dr3) by simp]
              rw [hdecomp]
            rw [← hsplit2, List.getLast?_append_of_ne_nil _ (by simp)]
            exact hx
          · exact (List.chain'_cons.mp hchain2).2
          · intro x hx hwx
            refine hsp x ?_ hwx
            have : x ∈ d :: e :: dr3 := List.mem_cons_of_mem d hx
            exact List.mem_cons_of_mem c (hdecomp ▸ List.mem_append_right _ this)
        have hlen2 : (e :: dr3).length ≤ n := by
          have hl2 : (c :: t).length ≤ n + 1 := hl
          have ht := congrArg List.length hdecomp
          simp only [List.length_append, List.length_cons] at ht
          simp only [List.length_cons] at hl2 ⊢
          omega
        have hihres := ih (e :: dr3) hlen2 hcan2
        rw [hdsp]
        rw [splitWsL_ws_cons ' ' _ (by decide)]
        have hne := splitWsL_ne_nil e dr3 hew
        obtain ⟨x, xs, hxs⟩ := List.exists_cons_of_ne_nil hne
        rw [hxs]
        show (c :: t.takeWhile (fun x => !pyWs x)) ++ [' '] ++
          joinSepL [' '] (x :: xs) = c :: t
        rw [← hxs, hihres]
        rw [show (c :: t.takeWhile (fun x => !pyWs x)) ++ [' '] ++ e :: dr3 =
          c :: (t.takeWhile (fun x => !pyWs x) ++ ' ' :: e :: dr3) by simp]
        rw [show (' ' : Char) :: e :: dr3 = d :: e :: dr3 by rw [hdsp]]
        rw [hdecomp]

/-- Top-level wrapper: canonically spaced text is reproduced by
`" ".join(text.split())`. -/
theorem joinSepL_splitWsL (l : List Char) (h : canonSpaced l) :
    joinSepL [' '] (splitWsL l) = l :=
  joinSepL_splitWsL_aux l.length l (Nat.le_refl _) h

/-- All-non-whitespace lists have no whitespace runs. -/
theorem noWsRun_of_nonws (l : List Char) (h : ∀ c ∈ l, pyWs c = false) :
    noWsRun l := by
  unfold noWsRun
  induction l with
  | nil => simp
  | cons a t ih =>
    cases t with
    | nil => simp
    | cons b t2 =>
      rw [List.chain'_cons]
      refine ⟨?_, ih (fun c hc => h c (List.mem_cons_of_mem a hc))⟩
      rintro ⟨ha, -⟩
      rw [h a (by simp)] at ha
      cases ha

/-- The head of a join of nonempty groups is the first group's head. -/
theorem joinSepL_head (g : List Char) (rest : List (List Char)) (hg : g ≠ []) :
    (joinSepL [' '] (g :: rest)).head? = g.head? := by
  cases rest with
  | nil => rfl
  | cons g2 r2 =>
    show ((g ++ [' ']) ++ joinSepL [' '] (g2 :: r2)).head? = g.head?
    rw [List.append_assoc, List.head?_append_of_ne_nil _ hg]

/-- The last element of a join of nonempty groups comes from a group
(the separator is never last). -/
theorem joinSepL_getLast (gs : List (List Char)) (h : ∀ g ∈ gs, g ≠ []) (c : Char)
    (hc : (joinSepL [' '] gs).getLast? = some c) : ∃ g ∈ gs, g.getLast? = some c := by
  induction gs with
  | nil => simp [joinSepL] at hc
  | cons g rest ih =>
    cases rest with
    | nil => exact ⟨g, by simp, hc⟩
    | cons g2 r2 =>
      have hg2 : g2 ≠ [] := h g2 (by simp)
      have hJ : joinSepL [' '] (g2 :: r2) ≠ [] := by
        obtain ⟨x, xs, rfl⟩ := List.exists_cons_of_ne_nil hg2
        cases r2 <;> simp [joinSepL]
      rw [show joinSepL [' '] (g :: g2 :: r2) =
        (g ++ [' ']) ++ joinSepL [' '] (g2 :: r2) from rfl] at hc
      rw [List.getLast?_append_of_ne_nil _ hJ] at hc
      obtain ⟨g3, hg3, hcg⟩ := ih (fun x hx => h x (by simp [hx])) hc
      exact ⟨g3, by simp [hg3], hcg⟩

/-- Membership in a join: a separator space or a group member. -/
theorem mem_joinSepL (gs : List (List Char)) (c : Char)
    (hc : c ∈ joinSepL [' '] gs) : c = ' ' ∨ ∃ g ∈ gs, c ∈ g := by
  induction gs with
  | nil => simp [joinSepL] at hc
  | cons g rest ih =>
    cases rest with
    | nil => exact Or.inr ⟨g, by simp, hc⟩
    | cons g2 r2 =>
      rw [show joinSepL [' '] (g :: g2 :: r2) =
        (g ++ [' ']) ++ joinSepL [' '] (g2 :: r2) from rfl] at hc
      rcases List.mem_append.mp hc with h1 | h2
      · rcases List.mem_append.mp h1 with h3 | h4
        · exact Or.inr ⟨g, by simp, h3⟩
        · exact Or.inl (by simpa using h4)
      · rcases ih h2 with h5 | ⟨g3, hg3, hcg⟩
        · exact Or.inl h5
        · exact Or.inr ⟨g3, by simp [hg3], hcg⟩

/-- A join of nonempty whitespace-free groups has no whitespace runs. -/
theorem noWsRun_joinSepL (gs : List (List Char))
    (h : ∀ g ∈ gs, g ≠ [] ∧ ∀ c ∈ g, pyWs c = false) :
    noWsRun (joinSepL [' '] gs) := by
  induction gs with
  | nil => simp [noWsRun, joinSepL]
  | cons g rest ih =>
    cases rest with
    | nil => exact noWsRun_of_nonws g (h g (by simp)).2
    | cons g2 r2 =>
      show noWsRun ((g ++ [' ']) ++ joinSepL [' '] (g2 :: r2))
      unfold noWsRun
      rw [List.append_assoc, List.chain'_append]
      refine ⟨noWsRun_of_nonws g (h g (by simp)).2, ?_, ?_⟩
      · rw [show ([' '] ++ joinSepL [' '] (g2 :: r2)) =
          ' ' :: joinSepL [' '] (g2 :: r2) from rfl]
        rw [List.chain'_cons']
        refine ⟨?_, ih (fun x hx => h x (by simp [hx]))⟩
        intro y hy
        have hg2 := h g2 (by simp)
        rw [joinSepL_head g2 r2 hg2.1] at hy
        have hyw : pyWs y = false := by
          obtain ⟨x2, xs2, rfl⟩ := List.exists_cons_of_ne_nil hg2.1
          simp only [List.head?_cons, Option.mem_def, Option.some.injEq] at hy
          subst hy
          exact hg2.2 _ (by simp)
        rintro ⟨-, hw⟩
        rw [hyw] at hw
        cases hw
      · intro x hx y hy
        have hxg : x ∈ g := List.mem_of_getLast?_eq_some (Option.mem_def.mp hx)
        have hxw : pyWs x = false := (h g (by simp)).2 x hxg
        rintro ⟨hw, -⟩
        rw [hxw] at hw
        cases hw

/-- The output of `" ".join(text.split())` is canonically spaced. -/
theorem canonSpaced_joinSepL (gs : List (List Char))
    (h : ∀ g ∈ gs, g ≠ [] ∧ ∀ c ∈ g, pyWs c = false) :
    canonSpaced (joinSepL [' '] gs) := by
  refine ⟨?_, ?_, noWsRun_joinSepL gs h, ?_⟩
  · intro c hc
    cases gs with
    | nil => simp [joinSepL] at hc
    | cons g rest =>
      rw [joinSepL_head g rest (h g (by simp)).1] at hc
      exact (h g (by simp)).2 c (List.mem_of_mem_head? hc)
  · intro c hc
    obtain ⟨g, hg, hcg⟩ := joinSepL_getLast gs (fun g hg => (h g hg).1) c hc
    exact (h g hg).2 c (List.mem_of_getLast?_eq_some hcg)
  · intro c hc hw
    rcases mem_joinSepL gs c hc with h1 | ⟨g, hg, hcg⟩
    · exact h1
    · rw [(h g hg).2 c hcg] at hw
      cases hw

/-- Canonical spacing survives taking a prefix and re-stripping. -/
theorem canonSpaced_stripL_take (l : List Char) (k : Nat) (h : canonSpaced l) :
    canonSpaced (stripL (l.take k)) := by
  have hinf : stripL (l.take k) <:+: l :=
    (stripL_isInfix (l.take k)).trans (List.take_prefix k l).isInfix
  refine ⟨stripL_head _, stripL_last _, ?_, ?_⟩
  · obtain ⟨p, s, hps⟩ := hinf
    have h1 : List.Chain' (fun a b => ¬(pyWs a = true ∧ pyWs b = true))
        (stripL (l.take k) ++ s) :=
      h.2.2.1.suffix ⟨p, by rw [← List.append_assoc]; exact hps⟩
    have h2 := h1.take (stripL (l.take k)).length
    rwa [List.take_left] at h2
  · intro c hc hw
    exact h.2.2.2 c (hinf.subset hc) hw

/-- The `_clean_title` suffix loop preserves canonical spacing. -/
theorem canonSpaced_stripSuffixes (sufs : List (List Char)) :
    ∀ l : List Char, canonSpaced l → canonSpaced (stripSuffixes l sufs) := by
  induction sufs with
  | nil => exact fun l h => h
  | cons suf rest ih =>
    intro l h
    unfold stripSuffixes
    split
    · exact ih _ (canonSpaced_stripL_take l _ h)
    · exact ih l h

/-- The suffix loop is a no-op when the title ends with none of the
suffixes. -/
theorem stripSuffixes_eq_self (sufs : List (List Char)) (l : List Char)
    (h : ∀ suf ∈ sufs, suf.reverse.isPrefixOf l.reverse = false) :
    stripSuffixes l sufs = l := by
  induction sufs with
  | nil => rfl
  | cons suf rest ih =>
    unfold stripSuffixes
    rw [if_neg (by rw [h suf (by simp)]; simp)]
    exact ih (fun s hs => h s (by simp [hs]))

/-- `_clean_text` (summary cleaning) is idempotent. -/
theorem clean_text_idem (s : String) : clean_text (clean_text s) = clean_text s := by
  by_cases hs : s = ""
  · subst hs
    rfl
  · have h1 : clean_text s = ⟨stripL (joinSepL [' '] (splitWsL s.data))⟩ := by
      unfold clean_text
      rw [if_neg hs]
    rw [h1]
    have hcan : canonSpaced (joinSepL [' '] (splitWsL s.data)) :=
      canonSpaced_joinSepL _ (splitWsL_groups_of s.data)
    have hstrip : stripL (joinSepL [' '] (splitWsL s.data)) =
        joinSepL [' '] (splitWsL s.data) := stripL_eq_self _ hcan.1 hcan.2.1
    rw [hstrip]
    by_cases hJn : joinSepL [' '] (splitWsL s.data) = []
    · rw [hJn]
      rfl
    · have hne : (⟨joinSepL [' '] (splitWsL s.data)⟩ : String) ≠ "" := by
        intro h0
        exact hJn (by simpa using congrArg String.data h0)
      unfold clean_text
      rw [if_neg hne]
      show (⟨stripL (joinSepL [' ']
        (splitWsL (joinSepL [' '] (splitWsL s.data))))⟩ : String) = _
      rw [joinSepL_splitWsL _ hcan, hstrip]

/-- A `split(sep)` piece never contains the separator. -/
theorem splitCharL_mem_not_sep (sep : Char) :
    ∀ (l : List Char), ∀ g ∈ splitCharL sep l, sep ∉ g := by
  intro l
  induction l with
  | nil =>
    intro g hg
    simp only [splitCharL, List.mem_singleton] at hg
    subst hg
    simp
  | cons c t ih =>
    intro g hg
    unfold splitCharL at hg
    by_cases hc : c = sep
    · rw [if_pos hc] at hg
      rcases List.mem_cons.mp hg with h1 | h2
      · subst h1
        simp
      · exact ih g h2
    · rw [if_neg hc] at hg
      cases hsp : splitCharL sep t with
      | nil =>
        rw [hsp] at hg
        simp only [List.mem_singleton] at hg
        subst hg
        simp only [List.mem_singleton]
        exact fun h0 => hc h0.symm
      | cons g0 gs =>
        rw [hsp] at hg
        rcases List.mem_cons.mp hg with h1 | h2
        · subst h1
          intro h0
          rcases List.mem_cons.mp h0 with h3 | h4
          · exact hc h3.symm
          · exact ih g0 (by rw [hsp]; simp) h4
        · exact ih g (by rw [hsp]; simp [h2])

/-- `split(sep)` after prepending a separator-free piece and `sep`. -/
theorem splitCharL_append_sep (sep : Char) (p : List Char) (rest : List Char)
    (hp : sep ∉ p) :
    splitCharL sep (p ++ sep :: rest) = p :: splitCharL sep rest := by
  induction p with
  | nil => simp [splitCharL]
  | cons c t ih =>
    have hc : ¬c = sep := fun h0 => hp (by simp [h0])
    show splitCharL sep (c :: (t ++ sep :: rest)) = (c :: t) :: splitCharL sep rest
    rw [show splitCharL sep (c :: (t ++ sep :: rest)) =
      (if c = sep then [] :: splitCharL sep (t ++ sep :: rest)
       else match splitCharL sep (t ++ sep :: rest) with
         | [] => [[c]]
         | g :: gs => (c :: g) :: gs) from rfl]
    rw [if_neg hc, ih (fun h0 => hp (by simp [h0]))]

/-- `split(sep)` is a left inverse of `sep.join` on separator-free
pieces. -/
theorem splitCharL_joinSepL (sep : Char) : ∀ ps : List (List Char), ps ≠ [] →
    (∀ p ∈ ps, sep ∉ p) → splitCharL sep (joinSepL [sep] ps) = ps := by
  intro ps
  induction ps with
  | nil => exact fun h => absurd rfl h
  | cons p rest ih =>
    intro _ hps
    cases rest with
    | nil =>
      show splitCharL sep p = [p]
      have hgen : ∀ l : List Char, sep ∉ l → splitCharL sep l = [l] := by
        intro l
        induction l with
        | nil => intro _; rfl
        | cons c t iht =>
          intro hl
          unfold splitCharL
          rw [if_neg (fun h0 => hl (by simp [h0]))]
          rw [iht (fun h0 => hl (by simp [h0]))]
      exact hgen p (hps p (by simp))
    | cons p2 r2 =>
      rw [show joinSepL [sep] (p :: p2 :: r2) =
        p ++ sep :: joinSepL [sep] (p2 :: r2) by simp [joinSepL]]
      rw [splitCharL_append_sep sep p _ (hps p (by simp))]
      rw [ih (by simp) (fun q hq => hps q (by simp [hq]))]

/-- A join of nonempty pieces is nonempty. -/
theorem joinSepL_ne_nil (sep : List Char) (gs : List (List Char)) (h0 : gs ≠ [])
    (h : ∀ g ∈ gs, g ≠ []) : joinSepL sep gs ≠ [] := by
  cases gs with
  | nil => exact absurd rfl h0
  | cons g rest =>
    cases rest with
    | nil => exact h g (by simp)
    | cons g2 r2 =>
      show (g ++ sep) ++ joinSepL sep (g2 :: r2) ≠ []
      simp [h g (by simp)]

/-- `_clean_content` is idempotent (the second pass always sees the
string form). -/
theorem clean_content_idem (x : PyStrOrList) :
    clean_content (.str (clean_content x)) = clean_content x := by
  have key : ∀ c : String, clean_content (.str (clean_content (.str c))) =
      clean_content (.str c) := by
    intro c
    by_cases hc : c = ""
    · subst hc
      rfl
    · have h1 : clean_content (.str c) =
          ⟨joinSepL ['\n'] (((splitCharL '\n' c.data).map stripL).filter (· ≠ []))⟩ := by
        unfold clean_content
        rw [if_neg hc]
      set cleaned := ((splitCharL '\n' c.data).map stripL).filter (· ≠ []) with hcl
      have hpieces : ∀ p ∈ cleaned, p ≠ [] ∧ stripL p = p ∧ '\n' ∉ p := by
        intro p hp
        rw [hcl] at hp
        obtain ⟨hpf, hpne⟩ := List.mem_filter.mp hp
        obtain ⟨q, hq, rfl⟩ := List.mem_map.mp hpf
        refine ⟨by simpa using hpne, stripL_idem q, ?_⟩
        intro hmem
        exact splitCharL_mem_not_sep '\n' c.data q hq ((stripL_isInfix q).subset hmem)
      rw [h1]
      by_cases hnil : cleaned = []
      · rw [hnil]
        rfl
      · have hJ : joinSepL ['\n'] cleaned ≠ [] :=
          joinSepL_ne_nil _ _ hnil (fun g hg => (hpieces g hg).1)
        have hne : (⟨joinSepL ['\n'] cleaned⟩ : String) ≠ "" := by
          intro h0
          exact hJ (by simpa using congrArg String.data h0)
        unfold clean_content
        rw [if_neg hne]
        show (⟨joinSepL ['\n'] (((splitCharL '\n'
          (joinSepL ['\n'] cleaned)).map stripL).filter (· ≠ []))⟩ : String) = _
        rw [splitCharL_joinSepL '\n' cleaned hnil (fun p hp => (hpieces p hp).2.2)]
        have hmap : cleaned.map stripL = cleaned := by
          have h2 := List.map_congr_left (l := cleaned) (f := stripL) (g := id)
            (fun p hp => (hpieces p hp).2.1)
          rw [h2, List.map_id]
        rw [hmap, List.filter_eq_self.mpr (fun p hp => by simpa using (hpieces p hp).1)]
  cases x with
  | str s => exact key s
  | list l => exact key _

/-- `Char.ofNat` round-trips `toNat` below the surrogate range. -/
theorem toNat_ofNat_valid (n : Nat) (h : n < 55296) : (Char.ofNat n).toNat = n := by
  unfold Char.ofNat
  rw [dif_pos (Or.inl (by exact_mod_cast (by simpa using h : (n : Nat) < 55296)))]
  rfl

/-- Characters with code point at least 33 are not whitespace. -/
theorem pyWs_of_ge_33 (c : Char) (h : 33 ≤ c.toNat) : pyWs c = false := by
  have h1 : c ≠ ' ' := fun h0 => by subst h0; exact absurd h (by decide)
  have h2 : c ≠ '\t' := fun h0 => by subst h0; exact absurd h (by decide)
  have h3 : c ≠ '\n' := fun h0 => by subst h0; exact absurd h (by decide)
  have h4 : c ≠ '\r' := fun h0 => by subst h0; exact absurd h (by decide)
  have h5 : c ≠ '\x0b' := fun h0 => by subst h0; exact absurd h (by decide)
  have h6 : c ≠ '\x0c' := fun h0 => by subst h0; exact absurd h (by decide)
  simp [pyWs, h1, h2, h3, h4, h5, h6]

/-- The code point of a lowered uppercase letter. -/
theorem pyLowerChar_toNat (c : Char) (h : 65 ≤ c.toNat ∧ c.toNat ≤ 90) :
    (pyLowerChar c).toNat = c.toNat + 32 := by
  unfold pyLowerChar
  rw [if_pos h]
  exact toNat_ofNat_valid _ (by omega)

/-- Lowercasing a character is idempotent. -/
theorem pyLowerChar_idem (c : Char) : pyLowerChar (pyLowerChar c) = pyLowerChar c := by
  by_cases h : 65 ≤ c.toNat ∧ c.toNat ≤ 90
  · have heq : pyLowerChar c = Char.ofNat (c.toNat + 32) := by
      unfold pyLowerChar
      rw [if_pos h]
    rw [heq]
    unfold pyLowerChar
    rw [if_neg (by rw [toNat_ofNat_valid _ (by omega)]; omega)]
  · have heq : pyLowerChar c = c := by
      unfold pyLowerChar
      rw [if_neg h]
    rw [heq, heq]

/-- Lowercasing preserves whitespace-ness. -/
theorem pyWs_pyLowerChar (c : Char) : pyWs (pyLowerChar c) = pyWs c := by
  by_cases h : 65 ≤ c.toNat ∧ c.toNat ≤ 90
  · rw [pyWs_of_ge_33 _ (by rw [pyLowerChar_toNat c h]; omega),
      pyWs_of_ge_33 c (by omega)]
  · unfold pyLowerChar
    rw [if_neg h]

/-- `hexDigitChar` output is never whitespace. -/
theorem hexDigitChar_not_ws (n : Nat) : pyWs (hexDigitChar n) = false := by
  unfold hexDigitChar
  split <;> rfl

/-- Decimal digit runs are whitespace-free. -/
theorem natDigitsAux_not_ws (fuel : Nat) :
    ∀ n, ∀ c ∈ natDigitsAux fuel n, pyWs c = false := by
  induction fuel with
  | zero => intro n c hc; simp [natDigitsAux] at hc
  | succ f ih =>
    intro n c hc
    unfold natDigitsAux at hc
    split at hc
    · simp only [List.mem_singleton] at hc
      subst hc
      exact hexDigitChar_not_ws n
    · rcases List.mem_append.mp hc with h1 | h2
      · exact ih _ c h1
      · simp only [List.mem_singleton] at h2
        subst h2
        exact hexDigitChar_not_ws _

/-- Zero-padded decimals are whitespace-free. -/
theorem padZeros_not_ws (w n : Nat) : ∀ c ∈ padZeros w n, pyWs c = false := by
  intro c hc
  unfold padZeros at hc
  rcases List.mem_append.mp hc with h1 | h2
  · rw [List.eq_of_mem_replicate h1]
    rfl
  · exact natDigitsAux_not_ws 20 n c h2

/-- `datetime.isoformat()` output contains no whitespace at all. -/
theorem isoformatChars_not_ws (d : PyDateTime) :
    ∀ c ∈ isoformatChars d, pyWs c = false := by
  intro c hc
  unfold isoformatChars at hc
  simp only [List.mem_append, List.mem_cons] at hc
  rcases hc with ((((((h | h) | h) | h) | h) | h) | h) | h
  · exact padZeros_not_ws 4 _ c h
  · rcases h with h | h
    · subst h; rfl
    · exact padZeros_not_ws 2 _ c h
  · rcases h with h | h
    · subst h; rfl
    · exact padZeros_not_ws 2 _ c h
  · rcases h with h | h
    · subst h; rfl
    · exact padZeros_not_ws 2 _ c h
  · rcases h with h | h
    · subst h; rfl
    · exact padZeros_not_ws 2 _ c h
  · rcases h with h | h
    · subst h; rfl
    · exact padZeros_not_ws 2 _ c h
  · split at h
    · simp at h
    · rcases List.mem_cons.mp h with h1 | h2
      · subst h1; rfl
      · exact padZeros_not_ws 6 _ c h2
  · split at h
    · simp at h
    · rcases List.mem_cons.mp h with h1 | h2
      · next o =>
        subst h1
        split <;> rfl
      · rcases List.mem_append.mp h2 with h3 | h4
        · exact padZeros_not_ws 2 _ c h3
        · rcases List.mem_cons.mp h4 with h5 | h6
          · subst h5; rfl
          · exact padZeros_not_ws 2 _ c h6

/-- `_standardize_time` is idempotent (the second pass sees a string
either way). -/
theorem standardize_time_idem (x : PyStrOrDT) :
    standardize_time (.str (standardize_time x)) = standardize_time x := by
  cases x with
  | str s =>
    show pyStrip (pyStrip s) = pyStrip s
    show (⟨stripL (stripL s.data)⟩ : String) = ⟨stripL s.data⟩
    rw [stripL_idem]
  | dt d =>
    show pyStrip (pyIsoformat d) = pyIsoformat d
    show (⟨stripL (isoformatChars d)⟩ : String) = ⟨isoformatChars d⟩
    rw [stripL_eq_self _
      (fun c hc => isoformatChars_not_ws d c (List.mem_of_mem_head? hc))
      (fun c hc => isoformatChars_not_ws d c (List.mem_of_getLast?_eq_some hc))]

/-- Closed form of `_clean_url` on a non-empty url: strip, then cut at
the first question mark. -/
theorem clean_url_eq (u : String) (h : u ≠ "") :
    clean_url u = ⟨(stripL u.data).takeWhile (· ≠ '?')⟩ := by
  unfold clean_url
  rw [if_neg h]
  by_cases hc : (stripL u.data).contains '?' = true
  · rw [if_pos hc]
  · rw [if_neg hc]
    congr 1
    refine ((List.takeWhile_eq_self_iff).mpr ?_).symm
    intro x hx
    have hxq : x ≠ '?' := by
      intro h0
      subst h0
      exact hc (List.elem_iff.mpr hx)
    simp [hxq]

/-- `_clean_url` is idempotent whenever its output does not end in
whitespace. -/
theorem clean_url_cond_idem (u : String)
    (h : ∀ c, (clean_url u).data.getLast? = some c → pyWs c = false) :
    clean_url (clean_url u) = clean_url u := by
  by_cases hu : u = ""
  · subst hu; rfl
  · rw [clean_url_eq u hu] at h ⊢
    by_cases hrn : (stripL u.data).takeWhile (· ≠ '?') = []
    · rw [hrn]
      rfl
    · have hne : (⟨(stripL u.data).takeWhile (· ≠ '?')⟩ : String) ≠ "" := by
        intro h0
        exact hrn (by simpa using congrArg String.data h0)
      rw [clean_url_eq _ hne]
      have hstrip : stripL ((stripL u.data).takeWhile (· ≠ '?')) =
          (stripL u.data).takeWhile (· ≠ '?') := by
        apply stripL_eq_self
        · intro c hc
          obtain ⟨rest, hrest⟩ := List.takeWhile_prefix (l := stripL u.data)
            (p := fun c => c ≠ '?')
          refine stripL_head u.data c ?_
          rw [← hrest, List.head?_append_of_ne_nil _ hrn]
          exact hc
        · intro c hc
          exact h c hc
      rw [hstrip]
      congr 1
      refine List.takeWhile_eq_self_iff.mpr ?_
      intro x hx
      have := List.mem_takeWhile_imp hx
      simpa using this

/-- An output of the image-cleaning step is a fixpoint of that step. -/
theorem cleanOneImg_fixed (img y : String) (h : cleanOneImg img = some y) :
    cleanOneImg y = some y := by
  unfold cleanOneImg at h
  split at h
  next hcond =>
    simp only [Option.some.injEq] at h
    have hstrip : pyStrip (pyStrip img) = pyStrip img := by
      show (⟨stripL (stripL img.data)⟩ : String) = ⟨stripL img.data⟩
      rw [stripL_idem]
    by_cases hss : pyStarts (pyStrip img) "//" = true
    · rw [if_pos hss] at h
      obtain ⟨rest, hrest⟩ : ∃ rest, (pyStrip img).data = '/' :: '/' :: rest := by
        obtain ⟨t, ht⟩ := List.isPrefixOf_iff_prefix.mp hss
        exact ⟨t, ht.symm⟩
      subst h
      have hyd : ("https:" ++ pyStrip img).data = "https://".data ++ rest := by
        rw [String.data_append, hrest]
        rfl
      have hstrip2 : pyStrip ("https:" ++ pyStrip img) = "https:" ++ pyStrip img := by
        have hs : stripL ("https:" ++ pyStrip img).data = ("https:" ++ pyStrip img).data := by
          apply stripL_eq_self
          · intro c hc
            rw [hyd, List.head?_append_of_ne_nil _ (by simp)] at hc
            rw [show ("https://".data).head? = some 'h' from rfl] at hc
            cases hc
            rfl
          · intro c hc
            rw [String.data_append,
              List.getLast?_append_of_ne_nil _ (by rw [hrest]; simp)] at hc
            exact stripL_last img.data c hc
        show (⟨stripL ("https:" ++ pyStrip img).data⟩ : String) = _
        rw [hs]
      have hb : pyStarts ("https:" ++ pyStrip img) "https://" = true := by
        unfold pyStarts
        exact List.isPrefixOf_iff_prefix.mpr ⟨rest, hyd.symm⟩
      have hns : pyStarts ("https:" ++ pyStrip img) "//" = false := by
        unfold pyStarts
        rw [String.data_append, hrest]
        rfl
      unfold cleanOneImg
      rw [hstrip2, if_pos (by rw [hb]; simp), if_neg (by rw [hns]; simp)]
    · rw [if_neg hss] at h
      subst h
      unfold cleanOneImg
      rw [hstrip, if_pos hcond, if_neg hss]
  next => exact absurd h (by simp)

/-- `filterMap` is the identity on lists of fixpoints. -/
theorem filterMap_cleanOneImg_self (l : List String)
    (h : ∀ y ∈ l, cleanOneImg y = some y) : l.filterMap cleanOneImg = l := by
  induction l with
  | nil => rfl
  | cons a t ih =>
    rw [List.filterMap_cons, h a (by simp), ih (fun y hy => h y (by simp [hy]))]

/-- `_clean_image_list` is idempotent. -/
theorem clean_image_list_idem (x : PyStrOrList) :
    clean_image_list (.list (clean_image_list x)) = clean_image_list x := by
  have key : ∀ l : List String,
      clean_image_list (.list (l.filterMap cleanOneImg)) = l.filterMap cleanOneImg := by
    intro l
    by_cases h0 : l.filterMap cleanOneImg = []
    · rw [h0]
      rfl
    · rw [show clean_image_list (.list (l.filterMap cleanOneImg)) =
        (if l.filterMap cleanOneImg = [] then []
         else (l.filterMap cleanOneImg).filterMap cleanOneImg) from rfl, if_neg h0]
      apply filterMap_cleanOneImg_self
      intro y hy
      obtain ⟨a, _, hay⟩ := List.mem_filterMap.mp hy
      exact cleanOneImg_fixed a y hay
  cases x with
  | str s =>
    by_cases hs : s = ""
    · subst hs
      rfl
    · rw [show clean_image_list (.str s) =
        (if s = "" then [] else [s].filterMap cleanOneImg) from rfl, if_neg hs]
      exact key [s]
  | list l =>
    by_cases hl : l = []
    · subst hl
      rfl
    · rw [show clean_image_list (.list l) =
        (if l = [] then [] else l.filterMap cleanOneImg) from rfl, if_neg hl]
      exact key l

/-- Strip-then-lowercase is a closure operator: its outputs are fixed by
another strip and another lowercase. -/
theorem pyLower_pyStrip_canonical (t : String) :
    pyStrip (pyLower (pyStrip t)) = pyLower (pyStrip t) ∧
    pyLower (pyLower (pyStrip t)) = pyLower (pyStrip t) := by
  constructor
  · show (⟨stripL ((stripL t.data).map pyLowerChar)⟩ : String) =
      ⟨(stripL t.data).map pyLowerChar⟩
    rw [stripL_eq_self]
    · intro c hc
      rw [List.head?_map] at hc
      cases hh : (stripL t.data).head? with
      | none => rw [hh] at hc; cases hc
      | some c0 =>
        rw [hh] at hc
        cases hc
        rw [pyWs_pyLowerChar]
        exact stripL_head t.data c0 hh
    · intro c hc
      rw [List.getLast?_map] at hc
      cases hh : (stripL t.data).getLast? with
      | none => rw [hh] at hc; cases hc
      | some c0 =>
        rw [hh] at hc
        cases hc
        rw [pyWs_pyLowerChar]
        exact stripL_last t.data c0 hh
  · show (⟨((stripL t.data).map pyLowerChar).map pyLowerChar⟩ : String) =
      ⟨(stripL t.data).map pyLowerChar⟩
    rw [List.map_map]
    congr 1
    exact List.map_congr_left (fun c _ => pyLowerChar_idem c)

/-- Elements produced by the tag loop are canonical (strip-lower fixed)
and non-empty. -/
theorem cleanTagsLoop_canonical : ∀ (l seen : List String), ∀ y ∈ cleanTagsLoop l seen,
    pyLower (pyStrip y) = y ∧ y ≠ "" := by
  intro l
  induction l with
  | nil => intro seen y hy; simp [cleanTagsLoop] at hy
  | cons tag t ih =>
    intro seen y hy
    unfold cleanTagsLoop at hy
    split at hy
    · next hcond =>
      rcases List.mem_cons.mp hy with h1 | h2
      · subst h1
        refine ⟨?_, hcond.1⟩
        rw [(pyLower_pyStrip_canonical tag).1, (pyLower_pyStrip_canonical tag).2]
      · exact ih _ y h2
    · exact ih _ y hy

/-- The tag loop emits no duplicates and nothing already seen. -/
theorem cleanTagsLoop_nodup : ∀ (l seen : List String),
    (cleanTagsLoop l seen).Nodup ∧ ∀ y ∈ cleanTagsLoop l seen, y ∉ seen := by
  intro l
  induction l with
  | nil => intro seen; simp [cleanTagsLoop]
  | cons tag t ih =>
    intro seen
    unfold cleanTagsLoop
    split
    · next hcond =>
      obtain ⟨ihn, ihs⟩ := ih (pyLower (pyStrip tag) :: seen)
      refine ⟨?_, ?_⟩
      · rw [List.nodup_cons]
        exact ⟨fun hmem => (ihs _ hmem) (by simp), ihn⟩
      · intro y hy
        rcases List.mem_cons.mp hy with h1 | h2
        · subst h1
          exact hcond.2
        · intro hsy
          exact (ihs y h2) (by simp [hsy])
    · exact ih seen

/-- On a list of canonical, duplicate-free, unseen tags the loop is the
identity. -/
theorem cleanTagsLoop_fixed : ∀ (l seen : List String),
    (∀ y ∈ l, pyLower (pyStrip y) = y ∧ y ≠ "") → l.Nodup →
    (∀ y ∈ l, y ∉ seen) → cleanTagsLoop l seen = l := by
  intro l
  induction l with
  | nil => intro seen _ _ _; rfl
  | cons x t ih =>
    intro seen hcan hnd hns
    have hx := hcan x (by simp)
    unfold cleanTagsLoop
    rw [hx.1, if_pos ⟨hx.2, hns x (by simp)⟩]
    congr 1
    apply ih
    · exact fun y hy => hcan y (by simp [hy])
    · exact (List.nodup_cons.mp hnd).2
    · intro y hy hmem
      rcases List.mem_cons.mp hmem with h1 | h2
      · subst h1
        exact (List.nodup_cons.mp hnd).1 hy
      · exact hns y (by simp [hy]) h2

/-- `_clean_tags` is idempotent. -/
theorem clean_tags_idem (x : PyStrOrList) :
    clean_tags (.list (clean_tags x)) = clean_tags x := by
  have key : ∀ l : List String,
      clean_tags (.list (cleanTagsLoop l [])) = cleanTagsLoop l [] := by
    intro l
    by_cases h0 : cleanTagsLoop l [] = []
    · rw [h0]
      rfl
    · rw [show clean_tags (.list (cleanTagsLoop l [])) =
        (if cleanTagsLoop l [] = [] then []
         else cleanTagsLoop (cleanTagsLoop l []) []) from rfl, if_neg h0]
      exact cleanTagsLoop_fixed _ [] (fun y hy => cleanTagsLoop_canonical l [] y hy)
        (cleanTagsLoop_nodup l []).1 (fun y _ => by simp)
  cases x with
  | str s =>
    by_cases hs : s = ""
    · subst hs
      rfl
    · rw [show clean_tags (.str s) =
        (if s = "" then [] else cleanTagsLoop [s] []) from rfl, if_neg hs]
      exact key [s]
  | list l =>
    by_cases hl : l = []
    · subst hl
      rfl
    · rw [show clean_tags (.list l) =
        (if l = [] then [] else cleanTagsLoop l []) from rfl, if_neg hl]
      exact key l

/-- The newline/cr/tab strip list never hits a canonically spaced
character. -/
theorem nrt_contains_false (c : Char) (h : pyWs c = true → c = ' ') :
    (['\n', '\r', '\t'].contains c) = false := by
  by_cases hw : pyWs c = true
  · rw [h hw]
    rfl
  · have h1 : c ≠ '\n' := fun h0 => hw (by subst h0; rfl)
    have h2 : c ≠ '\r' := fun h0 => hw (by subst h0; rfl)
    have h3 : c ≠ '\t' := fun h0 => hw (by subst h0; rfl)
    simp [h1, h2, h3]

/-- `.strip("\n\r\t")` is a no-op on canonically spaced text. -/
theorem stripCharsL_canon (l : List Char) (h : canonSpaced l) :
    stripCharsL ['\n', '\r', '\t'] l = l :=
  stripCharsL_eq_self _ l (fun c hc => nrt_contains_false c (h.2.2.2 c hc))

/-- Closed form of `_clean_title` on a non-empty title: the whitespace
collapse already removes all newlines/tabs, so only the suffix loop
remains. -/
theorem clean_title_eq (t : String) (h : t ≠ "") :
    clean_title t = ⟨stripSuffixes (joinSepL [' '] (splitWsL t.data))
      (titleSuffixes.map (·.data))⟩ := by
  rw [show clean_title t = (if t = "" then "" else
    ⟨stripSuffixes (stripCharsL ['\n', '\r', '\t'] (joinSepL [' '] (splitWsL t.data)))
      (titleSuffixes.map (·.data))⟩) from rfl, if_neg h,
    stripCharsL_canon _ (canonSpaced_joinSepL _ (splitWsL_groups_of t.data))]

/-- `_clean_title` fixes any canonically spaced title ending with none
of the known site-name suffixes. -/
theorem clean_title_canon_fixed (R : List Char) (hcan : canonSpaced R)
    (h : ∀ suf ∈ titleSuffixes, pyEnds (⟨R⟩ : String) suf = false) :
    clean_title ⟨R⟩ = ⟨R⟩ := by
  by_cases hR : R = []
  · subst hR
    rfl
  · have hne : (⟨R⟩ : String) ≠ "" := fun h0 =>
      hR (by simpa using congrArg String.data h0)
    rw [clean_title_eq _ hne]
    rw [show (⟨R⟩ : String).data = R from rfl]
    rw [joinSepL_splitWsL _ hcan]
    congr 1
    apply stripSuffixes_eq_self
    intro suf hsuf
    obtain ⟨s0, hs0, hdata⟩ := List.mem_map.mp hsuf
    subst hdata
    exact h s0 hs0

/-- `_clean_title` is idempotent whenever its output ends with none of
the known site-name suffixes. -/
theorem clean_title_cond_idem (t : String)
    (h : ∀ suf ∈ titleSuffixes, pyEnds (clean_title t) suf = false) :
    clean_title (clean_title t) = clean_title t := by
  by_cases ht : t = ""
  · subst ht
    rfl
  · rw [clean_title_eq t ht] at h ⊢
    exact clean_title_canon_fixed _
      (canonSpaced_stripSuffixes _ _ (canonSpaced_joinSepL _ (splitWsL_groups_of t.data))) h

/-! ## C9 helpers -/

/-- `strip` never lengthens. -/
theorem stripL_length_le (l : List Char) : (stripL l).length ≤ l.length :=
  (stripL_isInfix l).sublist.length_le

/-- `strip` strictly shortens a list ending in whitespace. -/
theorem stripL_length_lt (l : List Char) (c : Char) (hc : l.getLast? = some c)
    (hw : pyWs c = true) : (stripL l).length < l.length := by
  cases eq_or_lt_of_le (stripL_length_le l) with
  | inr h => exact h
  | inl h =>
    exfalso
    have heq : stripL l = l := (stripL_isInfix l).sublist.eq_of_length h
    rw [← heq] at hc
    rw [stripL_last l c hc] at hw
    cases hw

/-- The suffix loop never lengthens. -/
theorem stripSuffixes_length_le : ∀ (sufs : List (List Char)) (l : List Char),
    (stripSuffixes l sufs).length ≤ l.length := by
  intro sufs
  induction sufs with
  | nil => intro l; exact Nat.le_refl _
  | cons suf rest ih =>
    intro l
    unfold stripSuffixes
    split
    · exact le_trans (ih _) (le_trans (stripL_length_le _)
        (by rw [List.length_take]; omega))
    · exact ih l

/-- The suffix loop strictly shortens a title ending in one of its
(non-empty) suffixes. -/
theorem stripSuffixes_length_lt : ∀ (sufs : List (List Char)) (l : List Char),
    (∀ s ∈ sufs, s ≠ []) →
    (∃ s ∈ sufs, s.reverse.isPrefixOf l.reverse = true) →
    (stripSuffixes l sufs).length < l.length := by
  intro sufs
  induction sufs with
  | nil =>
    intro l _ h
    simp at h
  | cons suf rest ih =>
    intro l hne hex
    unfold stripSuffixes
    split
    · next hcond =>
      have hsl : suf.length ≤ l.length := by
        have := (List.isPrefixOf_iff_prefix.mp hcond).sublist.length_le
        simpa using this
      have h1 : 0 < suf.length := List.length_pos.mpr (hne suf (by simp))
      calc (stripSuffixes (stripL (l.take (l.length - suf.length))) rest).length
          ≤ (stripL (l.take (l.length - suf.length))).length :=
            stripSuffixes_length_le _ _
        _ ≤ (l.take (l.length - suf.length)).length := stripL_length_le _
        _ ≤ l.length - suf.length := by rw [List.length_take]; omega
        _ < l.length := by omega
    · next hcond =>
      apply ih l (fun s hs => hne s (by simp [hs]))
      obtain ⟨sw, hsw, hp⟩ := hex
      rcases List.mem_cons.mp hsw with rfl | hs2
      · exact absurd hp hcond
      · exact ⟨sw, hs2, hp⟩

/-- `_clean_title` is not idempotent on a title whose cleaned form still
ends in a known suffix: the second pass strips again, strictly
shortening. -/
theorem clean_title_not_idem_of_ends (t : String)
    (h : ∃ suf ∈ titleSuffixes, pyEnds (clean_title t) suf = true) :
    clean_title (clean_title t) ≠ clean_title t := by
  obtain ⟨suf, hsuf, hends⟩ := h
  by_cases ht : t = ""
  · subst ht
    rw [show clean_title "" = "" from rfl] at hends
    simp [titleSuffixes] at hsuf
    rcases hsuf with rfl | rfl | rfl <;> exact absurd hends (by decide)
  · intro heq
    have hcanR : canonSpaced (clean_title t).data := by
      rw [clean_title_eq t ht]
      exact canonSpaced_stripSuffixes _ _
        (canonSpaced_joinSepL _ (splitWsL_groups_of t.data))
    have hRne : clean_title t ≠ "" := by
      intro h0
      rw [h0] at hends
      simp [titleSuffixes] at hsuf
      rcases hsuf with rfl | rfl | rfl <;> exact absurd hends (by decide)
    have h2 : clean_title (clean_title t) =
        ⟨stripSuffixes (clean_title t).data (titleSuffixes.map (·.data))⟩ := by
      rw [clean_title_eq _ hRne, joinSepL_splitWsL _ hcanR]
    have hlt : (stripSuffixes (clean_title t).data (titleSuffixes.map (·.data))).length <
        (clean_title t).data.length := by
      apply stripSuffixes_length_lt
      · intro s0 hs0
        simp [titleSuffixes] at hs0
        rcases hs0 with rfl | rfl | rfl <;> decide
      · exact ⟨suf.data, List.mem_map_of_mem _ hsuf, hends⟩
    rw [h2] at heq
    have hlen : (stripSuffixes (clean_title t).data (titleSuffixes.map (·.data))).length =
        (clean_title t).data.length :=
      congrArg (fun s0 : String => s0.data.length) heq
    omega

/-- `_clean_url` is not idempotent on a url whose cleaned form ends in
whitespace: the second pass strips it, strictly shortening. -/
theorem clean_url_not_idem_of_trailing_ws (u : String)
    (h : ∃ c, (clean_url u).data.getLast? = some c ∧ pyWs c = true) :
    clean_url (clean_url u) ≠ clean_url u := by
  obtain ⟨c, hlast, hws⟩ := h
  by_cases hu : u = ""
  · rw [hu] at hlast
    simp [clean_url] at hlast
  · intro heq
    have hRne : clean_url u ≠ "" := by
      intro h0
      rw [h0] at hlast
      simp at hlast
    have hlen : (clean_url (clean_url u)).data.length = (clean_url u).data.length :=
      congrArg (fun s0 : String => s0.data.length) heq
    have hlt : (clean_url (clean_url u)).data.length < (clean_url u).data.length := by
      rw [clean_url_eq _ hRne]
      show ((stripL (clean_url u).data).takeWhile (· ≠ '?')).length <
        (clean_url u).data.length
      calc ((stripL (clean_url u).data).takeWhile (· ≠ '?')).length
          ≤ (stripL (clean_url u).data).length :=
            (List.takeWhile_prefix _).sublist.length_le
        _ < (clean_url u).data.length := stripL_length_lt _ c hlast hws
    omega

/-- **C4** counterexample: the title transform is not idempotent when its
output again ends in a known suffix, and the url transform is not
idempotent when cutting at `?` exposes trailing whitespace. -/
theorem cleaning_not_idempotent_cex :
    clean_title (clean_title "Breaking News - CNN - CNN") ≠
      clean_title "Breaking News - CNN - CNN" ∧
    clean_url (clean_url "http://a.com ?x") ≠ clean_url "http://a.com ?x" := by
  decide

/-- **C4** (amended): the content, summary, time, image and tag
transforms of `DataCleaningPipeline` are unconditionally idempotent;
the title transform is idempotent exactly when its output ends in no
known site-name suffix, and the url transform exactly when its output
has no trailing whitespace (both directions of each "exactly when" are
proved). -/
theorem cleaning_idempotence :
    (∀ t, clean_title (clean_title t) = clean_title t ↔
      ∀ suf ∈ titleSuffixes, pyEnds (clean_title t) suf = false) ∧
    (∀ x, clean_content (.str (clean_content x)) = clean_content x) ∧
    (∀ s, clean_text (clean_text s) = clean_text s) ∧
    (∀ y, standardize_time (.str (standardize_time y)) = standardize_time y) ∧
    (∀ u, clean_url (clean_url u) = clean_url u ↔
      ∀ c, (clean_url u).data.getLast? = some c → pyWs c = false) ∧
    (∀ x, clean_image_list (.list (clean_image_list x)) = clean_image_list x) ∧
    (∀ x, clean_tags (.list (clean_tags x)) = clean_tags x) :=
  ⟨fun t =>
    ⟨fun hidem => by
      by_contra hno
      push_neg at hno
      obtain ⟨suf, hsuf, hne⟩ := hno
      exact clean_title_not_idem_of_ends t ⟨suf, hsuf, Bool.ne_false_iff.mp hne⟩ hidem,
     clean_title_cond_idem t⟩,
   clean_content_idem, clean_text_idem, standardize_time_idem,
   fun u =>
    ⟨fun hidem => by
      by_contra hno
      push_neg at hno
      obtain ⟨c, hlast, hne⟩ := hno
      exact clean_url_not_idem_of_trailing_ws u
        ⟨c, hlast, Bool.ne_false_iff.mp hne⟩ hidem,
     clean_url_cond_idem u⟩,
   clean_image_list_idem, clean_tags_idem⟩

/-- Witness instantiating the two biconditional conjuncts of
`cleaning_idempotence` at concrete inputs (and showing the conditions
are non-vacuous: they fail at the counterexample inputs). -/
theorem cleaning_idempotence_witness :
    clean_title (clean_title "Breaking News") = clean_title "Breaking News" ∧
    clean_url (clean_url "http://a.com?x=1") = clean_url "http://a.com?x=1" ∧
    ¬(∀ suf ∈ titleSuffixes,
        pyEnds (clean_title "Breaking News - CNN - CNN") suf = false) ∧
    ¬(∀ c, (clean_url "http://a.com ?x").data.getLast? = some c → pyWs c = false) := by
  refine ⟨(cleaning_idempotence.1 "Breaking News").mpr (by decide),
    (cleaning_idempotence.2.2.2.2.1 "http://a.com?x=1").mpr ?_, by decide, ?_⟩
  · intro c hc
    rw [show (clean_url "http://a.com?x=1").data.getLast? = some 'm' from rfl] at hc
    injection hc with h
    subst h
    rfl
  · intro hall
    exact absurd (hall ' ' rfl) (by decide)

/-! ## C10 -/

set_option maxRecDepth 100000 in
/-- Sanity check of the embedded MD5 against the RFC 1321 test vector. -/
theorem md5_rfc_vector :
    md5Hexdigest (utf8Encode "abc") = "900150983cd24fb0d6963f7d28e17f72" := by
  decide

/-- An MD5 hex digest always has 32 characters. -/
theorem md5Hexdigest_length (msg : List Nat) : (md5Hexdigest msg).length = 32 := by
  unfold md5Hexdigest
  simp [String.length, wordLEBytes, byteHexChars]

/-- C10: `generate_news_id` maps the empty url to the empty string (not
to the MD5 of the empty string), and every non-empty url to the
32-character hex digest of the MD5 hash of its UTF-8 encoding. -/
theorem generate_news_id_spec :
    generate_news_id "" = ""
    ∧ ∀ url : String, url ≠ "" →
        generate_news_id url = md5Hexdigest (utf8Encode url)
        ∧ (generate_news_id url).length = 32 := by
  refine ⟨rfl, fun url h => ?_⟩
  rw [generate_news_id, if_neg h]
  exact ⟨rfl, md5Hexdigest_length _⟩

/-- Witness for C10 at a concrete non-empty url. -/
theorem generate_news_id_spec_witness :
    ("https://example.com/news/1" : String) ≠ ""
    ∧ generate_news_id "https://example.com/news/1" =
        md5Hexdigest (utf8Encode "https://example.com/news/1")
    ∧ (generate_news_id "https://example.com/news/1").length = 32 :=
  ⟨by decide,
   (generate_news_id_spec.2 "https://example.com/news/1" (by decide)).1,
   (generate_news_id_spec.2 "https://example.com/news/1" (by decide)).2⟩

end NewsScraper
